import Mathlib

/-!
Shallow embedding of the OpenJ9 class-relationship verifier core
(runtime/bcverify/classrelationships.c): snippet recording, deferred
relationship validation against a per-classloader relationship table,
and the shared-cache snippet blob encoding.

Class names are byte strings in the source; they are modelled as Lean
strings, with `String.length` standing for the byte length (names are
ASCII).  Machine allocation (j9mem_allocate_memory, hashTableNew,
hashTableAdd, pool_new, pool_newElement) is modelled by an explicit
oracle: a list of booleans consumed one per allocation event, where
`true` means that allocation fails and the empty list means every
remaining allocation succeeds.
-/

namespace ClassRelationships

/-- Class names (J9UTF8 byte strings). -/
abbrev ClassName := String

/-- Verification reason codes used by the source (BCV_SUCCESS,
BCV_ERR_INSUFFICIENT_MEMORY, BCV_ERR_INTERNAL_ERROR). -/
inductive ReasonCode where
  | BCV_SUCCESS
  | BCV_ERR_INSUFFICIENT_MEMORY
  | BCV_ERR_INTERNAL_ERROR
deriving DecidableEq

/-- A loaded class (J9Class): the model keeps only what the core reads,
namely the interface bit of its ROM class and a name tag so that
distinct classes are distinguishable values. -/
structure J9Class where
  name : ClassName
  isInterface : Bool
deriving DecidableEq

/-- Collaborator view (J9JavaVM / internalVMFunctions): the loaded-class
lookup for the class loader, the definitive hierarchy predicate, and the
always-loaded java/lang/Throwable class
(J9VMJAVALANGTHROWABLE_OR_NULL). -/
structure VMEnv where
  hashClassTableAt : ClassName → Option J9Class
  isSameOrSuperClassOf : J9Class → J9Class → Bool
  throwableClass : J9Class

/-- J9ClassRelationshipNode: one still-pending parent obligation. -/
structure J9ClassRelationshipNode where
  className : ClassName
deriving DecidableEq

/-- The two flag bits of a J9ClassRelationship entry
(J9RELATIONSHIP_MUST_BE_INTERFACE, J9RELATIONSHIP_PARENT_CLASS_IS_THROWABLE),
modelled as two booleans of the flags word. -/
structure J9RelationshipFlags where
  mustBeInterface : Bool
  parentIsThrowable : Bool
deriving DecidableEq

/-- J9ClassRelationship: one entry of the per-classloader hash table,
keyed by the child class name, holding the flags and the linked list of
parent nodes (in list order = linked-list order). -/
structure J9ClassRelationship where
  className : ClassName
  flags : J9RelationshipFlags
  root : List J9ClassRelationshipNode
deriving DecidableEq

/-- The classRelationshipsHashTable contents, in insertion order. -/
abbrev J9ClassRelationshipTable := List J9ClassRelationship

/-- The literal string J9RELATIONSHIP_JAVA_LANG_THROWABLE_STRING. -/
def J9RELATIONSHIP_JAVA_LANG_THROWABLE_STRING : ClassName := "java/lang/Throwable"

/-- Allocation oracle: consume one outcome; `true` means the allocation
fails.  The empty oracle means all remaining allocations succeed. -/
def alloc : List Bool → Bool × List Bool
  | [] => (true, [])
  | b :: rest => (!b, rest)

/-- findClassRelationship: hashTableFind keyed by class-name byte
equality (relationshipHashEqualFn). -/
def findClassRelationship : J9ClassRelationshipTable → ClassName → Option J9ClassRelationship
  | [], _ => none
  | e :: rest, name => if e.className = name then some e else findClassRelationship rest name

/-- Update (in place) the entry with the given key, mirroring a mutation
through the pointer returned by hashTableFind/hashTableAdd. -/
def updateClassRelationship : J9ClassRelationshipTable → ClassName → (J9ClassRelationship → J9ClassRelationship) → J9ClassRelationshipTable
  | [], _, _ => []
  | e :: rest, name, f =>
    if e.className = name then f e :: rest
    else e :: updateClassRelationship rest name f

/-- hashTableRemove of the entry with the given key (first occurrence;
keys are unique in every reachable table). -/
def removeClassRelationship : J9ClassRelationshipTable → ClassName → J9ClassRelationshipTable
  | [], _ => []
  | e :: rest, name => if e.className = name then rest else e :: removeClassRelationship rest name

/-- The parent-node walk of j9bcv_recordClassRelationship: walk the
length-ordered list; stop with an insertion before the first node whose
name is strictly longer (`addBefore`); stop with `none` when a node with
byte-equal name is met (`alreadyPresent`); append at the end otherwise.
Returns `none` when the parent is already present, otherwise the new
list with the parent node spliced in. -/
def insertParent : List J9ClassRelationshipNode → ClassName → Option (List J9ClassRelationshipNode)
  | [], parentClassName => some [⟨parentClassName⟩]
  | walk :: rest, parentClassName =>
    if walk.className.length > parentClassName.length then
      some (⟨parentClassName⟩ :: walk :: rest)
    else if walk.className = parentClassName then
      none
    else
      (insertParent rest parentClassName).map (walk :: ·)

/-- Result of j9bcv_recordClassRelationship: the IDATA return value, the
reason code written through reasonCode, the table after the call, and
the remaining allocation oracle. -/
structure RecordResult where
  recordResult : Bool
  reasonCode : ReasonCode
  table : Option J9ClassRelationshipTable
  oracle : List Bool
deriving DecidableEq

/-- Second half of j9bcv_recordClassRelationship, with the entry for the
child located (or freshly added) and already inside the table: set the
Throwable flag for parent java/lang/Throwable, otherwise walk the node
list and splice in a freshly allocated node unless already present.
Node allocation is pool_newElement followed by a className allocation
(allocateClassRelationshipNode); failure of either aborts the record
leaving the table as it stands. -/
def recordParentIntoEntry (childClassName parentClassName : ClassName)
    (entry : J9ClassRelationship) (t : J9ClassRelationshipTable) (oracle : List Bool) : RecordResult :=
  if parentClassName = J9RELATIONSHIP_JAVA_LANG_THROWABLE_STRING then
    ⟨true, .BCV_SUCCESS,
      some (updateClassRelationship t childClassName
        (fun e => { e with flags := { e.flags with parentIsThrowable := true } })), oracle⟩
  else
    match insertParent entry.root parentClassName with
    | none => ⟨true, .BCV_SUCCESS, some t, oracle⟩
    | some newRoot =>
      let (ok1, o1) := alloc oracle
      if !ok1 then ⟨false, .BCV_ERR_INSUFFICIENT_MEMORY, some t, o1⟩
      else
        let (ok2, o2) := alloc o1
        if !ok2 then ⟨false, .BCV_ERR_INSUFFICIENT_MEMORY, some t, o2⟩
        else ⟨true, .BCV_SUCCESS,
          some (updateClassRelationship t childClassName (fun e => { e with root := newRoot })), o2⟩

/-- Body of j9bcv_recordClassRelationship once the table exists: locate
the existing entry or allocate a fresh one (className allocation, then
hashTableAdd; failure of either aborts, leaving the table as it was). -/
def recordWithTable (childClassName parentClassName : ClassName)
    (t : J9ClassRelationshipTable) (oracle : List Bool) : RecordResult :=
  match findClassRelationship t childClassName with
  | some entry => recordParentIntoEntry childClassName parentClassName entry t oracle
  | none =>
    let (ok1, o1) := alloc oracle
    if !ok1 then ⟨false, .BCV_ERR_INSUFFICIENT_MEMORY, some t, o1⟩
    else
      let (ok2, o2) := alloc o1
      if !ok2 then ⟨false, .BCV_ERR_INSUFFICIENT_MEMORY, some t, o2⟩
      else
        let entry : J9ClassRelationship := ⟨childClassName, ⟨false, false⟩, []⟩
        recordParentIntoEntry childClassName parentClassName entry (t ++ [entry]) o2

/-- j9bcv_recordClassRelationship: record a pending (child, parent)
relationship in the class loader's table, lazily allocating the hash
table and node pool on first use (two allocation events; a failed
pool_new after a successful hashTableNew leaves the empty table
installed, exactly as allocateClassRelationshipTableAndPool does). -/
def j9bcv_recordClassRelationship (childClassName parentClassName : ClassName)
    (table : Option J9ClassRelationshipTable) (oracle : List Bool) : RecordResult :=
  match table with
  | some t => recordWithTable childClassName parentClassName t oracle
  | none =>
    let (ok1, o1) := alloc oracle
    if !ok1 then ⟨false, .BCV_ERR_INSUFFICIENT_MEMORY, none, o1⟩
    else
      let (ok2, o2) := alloc o1
      if !ok2 then ⟨false, .BCV_ERR_INSUFFICIENT_MEMORY, some [], o2⟩
      else recordWithTable childClassName parentClassName [] o2

/-- The parent-node walk of j9bcv_validateClassRelationships.  For each
node: an unloaded parent propagates MUST_BE_INTERFACE (creating the
parent's entry with a className allocation followed by hashTableAdd;
failure of either makes validation fail with the child class itself);
a loaded interface parent is always accepted; a loaded non-interface
parent must satisfy isSameOrSuperClassOf or validation fails with that
parent.  Returns the failed class (`none` = walk completed), the table,
and the remaining oracle. -/
def validateWalk (env : VMEnv) (childClass : J9Class) :
    List J9ClassRelationshipNode → J9ClassRelationshipTable → List Bool →
    Option J9Class × J9ClassRelationshipTable × List Bool
  | [], t, o => (none, t, o)
  | n :: rest, t, o =>
    match env.hashClassTableAt n.className with
    | none =>
      match findClassRelationship t n.className with
      | none =>
        let (ok1, o1) := alloc o
        if !ok1 then (some childClass, t, o1)
        else
          let (ok2, o2) := alloc o1
          if !ok2 then (some childClass, t, o2)
          else validateWalk env childClass rest (t ++ [⟨n.className, ⟨true, false⟩, []⟩]) o2
      | some _ =>
        validateWalk env childClass rest
          (updateClassRelationship t n.className
            (fun e => { e with flags := { e.flags with mustBeInterface := true } })) o
    | some parentClass =>
      if parentClass.isInterface then
        validateWalk env childClass rest t o
      else if env.isSameOrSuperClassOf parentClass childClass then
        validateWalk env childClass rest t o
      else
        (some parentClass, t, o)

/-- Result of j9bcv_validateClassRelationships: the failed class (NULL =
success), the table afterwards, and the remaining oracle. -/
structure ValidateResult where
  failedClass : Option J9Class
  table : Option J9ClassRelationshipTable
  oracle : List Bool

/-- Body of j9bcv_validateClassRelationships over an allocated table. -/
def validateWithTable (env : VMEnv) (childClassName : ClassName) (childClass : J9Class)
    (t : J9ClassRelationshipTable) (oracle : List Bool) :
    Option J9Class × J9ClassRelationshipTable × List Bool :=
  match findClassRelationship t childClassName with
  | none => (none, t, oracle)
  | some entry =>
    if entry.flags.mustBeInterface && !childClass.isInterface then
      (some childClass, t, oracle)
    else if entry.flags.parentIsThrowable
        && !(env.isSameOrSuperClassOf env.throwableClass childClass) then
      (some env.throwableClass, t, oracle)
    else
      match validateWalk env childClass entry.root t oracle with
      | (some failedClass, t1, o1) => (some failedClass, t1, o1)
      | (none, t1, o1) => (none, removeClassRelationship t1 childClassName, o1)

/-- j9bcv_validateClassRelationships: validate every recorded pending
relationship of the freshly loaded child class.  No entry means no
pending obligations; a MUST_BE_INTERFACE entry on a non-interface child
fails with the child itself; a PARENT_IS_THROWABLE entry checks the
hierarchy against the always-loaded Throwable and fails with Throwable;
then the parent walk runs and, on full success, the entry's nodes and
name are freed and the entry is removed from the table. -/
def j9bcv_validateClassRelationships (env : VMEnv)
    (table : Option J9ClassRelationshipTable) (childClassName : ClassName)
    (childClass : J9Class) (oracle : List Bool) : ValidateResult :=
  match table with
  | none => ⟨none, none, oracle⟩
  | some t =>
    let (failedClass, t1, o1) := validateWithTable env childClassName childClass t oracle
    ⟨failedClass, some t1, o1⟩

/-- Result of checkSnippetRelationship and of a snippet-processing pass:
the reason code, the class name of the relationship-violation diagnostic
(Trc_RTV_validateClassRelationships_InvalidRelationship names the parent
at the one violation site), the table, and the remaining oracle. -/
structure CheckResult where
  reasonCode : ReasonCode
  violatingClass : Option ClassName
  table : Option J9ClassRelationshipTable
  oracle : List Bool
deriving DecidableEq

/-- checkSnippetRelationship: parent not loaded → defer via
j9bcv_recordClassRelationship; parent loaded and an interface → pass
without recording; child not loaded → defer likewise; both loaded →
verdict is isSameOrSuperClassOf(parent, child), a false verdict failing
with BCV_ERR_INTERNAL_ERROR naming the parent. -/
def checkSnippetRelationship (env : VMEnv) (childClassName parentClassName : ClassName)
    (table : Option J9ClassRelationshipTable) (oracle : List Bool) : CheckResult :=
  match env.hashClassTableAt parentClassName with
  | none =>
    let r := j9bcv_recordClassRelationship childClassName parentClassName table oracle
    ⟨r.reasonCode, none, r.table, r.oracle⟩
  | some parentClass =>
    if parentClass.isInterface then
      ⟨.BCV_SUCCESS, none, table, oracle⟩
    else
      match env.hashClassTableAt childClassName with
      | none =>
        let r := j9bcv_recordClassRelationship childClassName parentClassName table oracle
        ⟨r.reasonCode, none, r.table, r.oracle⟩
      | some childClass =>
        if env.isSameOrSuperClassOf parentClass childClass then
          ⟨.BCV_SUCCESS, none, table, oracle⟩
        else
          ⟨.BCV_ERR_INTERNAL_ERROR, some parentClassName, table, oracle⟩

/-- The common snippet-processing loop shared by
processClassRelationshipSnippetsNoCachedData (over the local hash table)
and processClassRelationshipSnippetsUsingCachedData (over decoded SRP
pairs): check each (childName, parentName) pair in order and break on
the first non-success reason code. -/
def processSnippetPairs (env : VMEnv) :
    List (ClassName × ClassName) → Option J9ClassRelationshipTable → List Bool → CheckResult
  | [], table, oracle => ⟨.BCV_SUCCESS, none, table, oracle⟩
  | (childClassName, parentClassName) :: rest, table, oracle =>
    let r := checkSnippetRelationship env childClassName parentClassName table oracle
    if r.reasonCode = .BCV_SUCCESS then processSnippetPairs env rest r.table r.oracle
    else r

/-- J9ClassRelationshipSnippet: a deduplicated (child, parent) pair of
NameTable indices recorded during one verification pass. -/
structure J9ClassRelationshipSnippet where
  childClassNameIndex : Nat
  parentClassNameIndex : Nat
deriving DecidableEq

/-- The per-pass verification data the snippet functions read: the
NameTable (classNameList, index → name) and the lazily allocated snippet
hash table (iteration order = list order). -/
structure J9BytecodeVerificationData where
  classNameList : Nat → ClassName
  classRelationshipSnippetsHashTable : Option (List J9ClassRelationshipSnippet)

/-- getNameAndLengthFromClassNameList applied to both indices of a
snippet. -/
def snippetNames (vd : J9BytecodeVerificationData) (s : J9ClassRelationshipSnippet) :
    ClassName × ClassName :=
  (vd.classNameList s.childClassNameIndex, vd.classNameList s.parentClassNameIndex)

/-- processClassRelationshipSnippetsNoCachedData: resolve each snippet
of the local hash table through the NameTable and run the common
check-and-break loop. -/
def processClassRelationshipSnippetsNoCachedData (env : VMEnv)
    (vd : J9BytecodeVerificationData) (snippets : List J9ClassRelationshipSnippet)
    (table : Option J9ClassRelationshipTable) (oracle : List Bool) : CheckResult :=
  processSnippetPairs env (snippets.map (snippetNames vd)) table oracle

/-- hashTableFind on the snippet table (relationshipSnippetHashEqualFn
compares both indices). -/
def findSnippet : List J9ClassRelationshipSnippet → J9ClassRelationshipSnippet →
    Option J9ClassRelationshipSnippet
  | [], _ => none
  | s :: rest, exemplar => if s = exemplar then some s else findSnippet rest exemplar

/-- Result of j9bcv_recordClassRelationshipSnippet. -/
structure SnippetRecordResult where
  recordResult : Bool
  reasonCode : ReasonCode
  snippetTable : Option (List J9ClassRelationshipSnippet)
  oracle : List Bool
deriving DecidableEq

/-- Body of j9bcv_recordClassRelationshipSnippet once the table exists:
add the exemplar pair unless already present (hashTableFind then
hashTableAdd, the latter an allocation event). -/
def recordSnippetWithTable (t : List J9ClassRelationshipSnippet)
    (childClassNameIndex parentClassNameIndex : Nat) (oracle : List Bool) : SnippetRecordResult :=
  let exemplar : J9ClassRelationshipSnippet := ⟨childClassNameIndex, parentClassNameIndex⟩
  match findSnippet t exemplar with
  | some _ => ⟨false, .BCV_SUCCESS, some t, oracle⟩
  | none =>
    let (ok, o1) := alloc oracle
    if !ok then ⟨false, .BCV_ERR_INSUFFICIENT_MEMORY, some t, o1⟩
    else ⟨true, .BCV_SUCCESS, some (t ++ [exemplar]), o1⟩

/-- j9bcv_recordClassRelationshipSnippet: record a (child, parent) index
pair in the per-pass snippet table, allocating the table on first use
(allocateClassRelationshipSnippetsHashTable, one allocation event).
Returns TRUE exactly when the pair was newly added. -/
def j9bcv_recordClassRelationshipSnippet (snippetTable : Option (List J9ClassRelationshipSnippet))
    (childClassNameIndex parentClassNameIndex : Nat) (oracle : List Bool) : SnippetRecordResult :=
  match snippetTable with
  | some t => recordSnippetWithTable t childClassNameIndex parentClassNameIndex oracle
  | none =>
    let (ok, o1) := alloc oracle
    if !ok then ⟨false, .BCV_ERR_INSUFFICIENT_MEMORY, none, o1⟩
    else recordSnippetWithTable [] childClassNameIndex parentClassNameIndex o1

/-- Byte size of the blob header (sizeof(J9SharedClassRelationshipHeader),
one UDATA snippet count on a 64-bit platform). -/
def headerSize : Nat := 8

/-- Byte size of one self-relative pointer (sizeof(J9SRP)). -/
def srpSize : Nat := 4

/-- Byte size of one serialized snippet
(sizeof(J9SharedClassRelationshipSnippet) = two J9SRPs). -/
def snippetSize : Nat := 2 * srpSize

/-- Byte footprint of one J9UTF8 written by setCurrentAndNextUTF8s:
classNameLength + 1 (the appended nul) + sizeof(U_16 length field). -/
def utf8AddressSize (classNameLength : Nat) : Nat := classNameLength + 1 + 2

/-- The name-storage strategy of storeToDataBuffer, chosen purely by
snippet count (snippetConfig). -/
inductive SnippetConfig where
  | J9RELATIONSHIP_SNIPPET_SINGLE
  | J9RELATIONSHIP_SNIPPET_USE_ARRAY
  | J9RELATIONSHIP_SNIPPET_USE_HASHTABLE
deriving DecidableEq

/-- Strategy selection of storeToDataBuffer: a single snippet needs no
dedup; above J9RELATIONSHIP_SNIPPET_COUNT_THRESHOLD (a header constant
not in the sources here, passed as a parameter) a class-name hash table
is used, otherwise a linear-scan array. -/
def chooseSnippetConfig (threshold snippetCount : Nat) : SnippetConfig :=
  if snippetCount = 1 then .J9RELATIONSHIP_SNIPPET_SINGLE
  else if snippetCount > threshold then .J9RELATIONSHIP_SNIPPET_USE_HASHTABLE
  else .J9RELATIONSHIP_SNIPPET_USE_ARRAY

/-- State threaded through storeToDataBuffer's snippet loop: the next
free UTF8 offset (nextUTF8Address, relative to the buffer start), the
class names actually stored in the UTF8 region with their offsets (in
write order; provisional writes that getUTF8AddressFromHashTable zeroes
out again are not part of the region), and the two dedup structures
(classNamesArray maps name indices to offsets, classNamesHashTable maps
names to offsets). -/
structure SerializeState where
  nextUTF8Offset : Nat
  utf8s : List (Nat × ClassName)
  classNamesArray : List (Nat × Nat)
  classNamesHashTable : List (ClassName × Nat)
deriving DecidableEq

/-- Linear scan of the classNamesArray by class-name index. -/
def findArrayOffset : List (Nat × Nat) → Nat → Option Nat
  | [], _ => none
  | (idx, off) :: rest, classNameIndex =>
    if idx = classNameIndex then some off else findArrayOffset rest classNameIndex

/-- hashTableFind on the classNamesHashTable by class-name byte equality
(relationshipClassNameHashEqualFn). -/
def findHashTableOffset : List (ClassName × Nat) → ClassName → Option Nat
  | [], _ => none
  | (nm, off) :: rest, className => if nm = className then some off else findHashTableOffset rest className

/-- getUTF8Address (single-snippet strategy): always write the class
name at nextUTF8Address and advance it. -/
def getUTF8Address (vd : J9BytecodeVerificationData) (st : SerializeState)
    (classNameIndex : Nat) : Nat × SerializeState :=
  let className := vd.classNameList classNameIndex
  let off := st.nextUTF8Offset
  (off, { st with
            nextUTF8Offset := off + utf8AddressSize className.length
            utf8s := st.utf8s ++ [(off, className)] })

/-- getUTF8AddressFromArray: reuse the offset already recorded for this
class-name index, else write the name, advance, and append the (index,
offset) mapping to the array. -/
def getUTF8AddressFromArray (vd : J9BytecodeVerificationData) (st : SerializeState)
    (classNameIndex : Nat) : Nat × SerializeState :=
  match findArrayOffset st.classNamesArray classNameIndex with
  | some off => (off, st)
  | none =>
    let className := vd.classNameList classNameIndex
    let off := st.nextUTF8Offset
    (off, { st with
              nextUTF8Offset := off + utf8AddressSize className.length
              utf8s := st.utf8s ++ [(off, className)]
              classNamesArray := st.classNamesArray ++ [(classNameIndex, off)] })

/-- getUTF8AddressFromHashTable: the name is provisionally written at
nextUTF8Address; if the table already holds a byte-equal name the
provisional bytes are zeroed again (so they never join the region) and
the previously stored offset is reused, otherwise the write stands, the
(name, offset) entry is added, and nextUTF8Address advances. -/
def getUTF8AddressFromHashTable (vd : J9BytecodeVerificationData) (st : SerializeState)
    (classNameIndex : Nat) : Nat × SerializeState :=
  let className := vd.classNameList classNameIndex
  match findHashTableOffset st.classNamesHashTable className with
  | some off => (off, st)
  | none =>
    let off := st.nextUTF8Offset
    (off, { st with
              nextUTF8Offset := off + utf8AddressSize className.length
              utf8s := st.utf8s ++ [(off, className)]
              classNamesHashTable := st.classNamesHashTable ++ [(className, off)] })

/-- Dispatch on snippetConfig inside storeToDataBuffer's loop body. -/
def resolveUTF8Address (config : SnippetConfig) (vd : J9BytecodeVerificationData)
    (st : SerializeState) (classNameIndex : Nat) : Nat × SerializeState :=
  match config with
  | .J9RELATIONSHIP_SNIPPET_USE_HASHTABLE => getUTF8AddressFromHashTable vd st classNameIndex
  | .J9RELATIONSHIP_SNIPPET_USE_ARRAY => getUTF8AddressFromArray vd st classNameIndex
  | .J9RELATIONSHIP_SNIPPET_SINGLE => getUTF8Address vd st classNameIndex

/-- The snippet loop of storeToDataBuffer: for each snippet resolve the
child and parent names to UTF8 offsets and emit the two SRPs
(SRP_PTR_SET stores the offset of the target relative to the SRP's own
address; srpAddress advances by sizeof(J9SRP) after each). -/
def storeSnippetsLoop (config : SnippetConfig) (vd : J9BytecodeVerificationData) :
    List J9ClassRelationshipSnippet → Nat → SerializeState → List Int × SerializeState
  | [], _, st => ([], st)
  | s :: rest, srpAddress, st =>
    let (childOff, st1) := resolveUTF8Address config vd st s.childClassNameIndex
    let childSRP : Int := (childOff : Int) - (srpAddress : Int)
    let (parentOff, st2) := resolveUTF8Address config vd st1 s.parentClassNameIndex
    let parentSRP : Int := (parentOff : Int) - ((srpAddress + srpSize : Nat) : Int)
    let (srpsRest, stFinal) := storeSnippetsLoop config vd rest (srpAddress + snippetSize) st2
    (childSRP :: parentSRP :: srpsRest, stFinal)

/-- The serialized data buffer (PersistedSnippetBlob): header count, the
SRP words of the snippet section in order (SRP i sits at offset
headerSize + i * srpSize), and the UTF8 region as (offset, name)
pairs.  All offsets are relative to the buffer's own start. -/
structure DataBuffer where
  snippetCount : Nat
  srps : List Int
  utf8s : List (Nat × ClassName)
deriving DecidableEq

/-- storeToDataBuffer: lay out SRPs starting at dataBufferSnippetStart
(= buffer + headerSize) and UTF8s starting at dataBufferUTF8Start
(= buffer + headerSize + snippetCount * sizeof(J9SharedClassRelationshipSnippet)). -/
def storeToDataBuffer (config : SnippetConfig) (vd : J9BytecodeVerificationData)
    (snippets : List J9ClassRelationshipSnippet) : DataBuffer :=
  let snippetCount := snippets.length
  let st0 : SerializeState := ⟨headerSize + snippetCount * snippetSize, [], [], []⟩
  let (srps, stFinal) := storeSnippetsLoop config vd snippets headerSize st0
  ⟨snippetCount, srps, stFinal.utf8s⟩

/-- j9bcv_storeClassRelationshipSnippetsToSharedCache's buffer-building
step, with the strategy chosen from the snippet count as
storeToDataBuffer does. -/
def serializeSnippets (threshold : Nat) (vd : J9BytecodeVerificationData)
    (snippets : List J9ClassRelationshipSnippet) : DataBuffer :=
  storeToDataBuffer (chooseSnippetConfig threshold snippets.length) vd snippets

/-- Resolve an absolute blob offset in the UTF8 region to the class name
stored there (reading the J9UTF8 an SRP points at). -/
def lookupUTF8 : List (Nat × ClassName) → Int → Option ClassName
  | [], _ => none
  | (off, className) :: rest, target =>
    if (off : Int) = target then some className else lookupUTF8 rest target

/-- SRP_GET: add the stored self-relative offset to the SRP's own
address and read the J9UTF8 there. -/
def SRP_GET (utf8s : List (Nat × ClassName)) (srpAddress : Nat) (srpValue : Int) :
    Option ClassName :=
  lookupUTF8 utf8s ((srpAddress : Int) + srpValue)

/-- The pair-decoding loop of processClassRelationshipSnippetsUsingCachedData:
snippet i reads its child SRP at headerSize + i * snippetSize and its
parent SRP one J9SRP later (`none` models the Assert_RTV_true firing on
an unresolvable SRP; well-formed blobs never produce it). -/
def decodeSnippetsLoop (utf8s : List (Nat × ClassName)) :
    List Int → Nat → Option (List (ClassName × ClassName))
  | [], _ => some []
  | [_], _ => none
  | childSRP :: parentSRP :: rest, srpAddress =>
    match SRP_GET utf8s srpAddress childSRP, SRP_GET utf8s (srpAddress + srpSize) parentSRP with
    | some childClassName, some parentClassName =>
      (decodeSnippetsLoop utf8s rest (srpAddress + snippetSize)).map
        ((childClassName, parentClassName) :: ·)
    | _, _ => none

/-- Decode all (childName, parentName) pairs of a data buffer exactly as
the cached-data processing loop reads them. -/
def decodeDataBuffer (b : DataBuffer) : Option (List (ClassName × ClassName)) :=
  decodeSnippetsLoop b.utf8s b.srps headerSize

/-- processClassRelationshipSnippetsUsingCachedData: decode the cached
pairs and run the common check-and-break loop over them. -/
def processClassRelationshipSnippetsUsingCachedData (env : VMEnv) (b : DataBuffer)
    (table : Option J9ClassRelationshipTable) (oracle : List Bool) : Option CheckResult :=
  (decodeDataBuffer b).map (fun pairs => processSnippetPairs env pairs table oracle)

/-- Outcome of the collaborator call findSharedData inside
j9bcv_fetchClassRelationshipSnippetsFromSharedCache: it returns the
number of data elements found, or -1 on error. -/
inductive CacheFindOutcome where
  | foundData (b : DataBuffer)
  | miss
  | findError
deriving DecidableEq

/-- j9bcv_fetchClassRelationshipSnippetsFromSharedCache: build the key
(an allocation that can fail), call findSharedData, and return
(foundSnippets, fetchResult, descriptor).  foundSnippets is TRUE only
when data was found; a key-allocation failure or findSharedData error
sets fetchResult to BCV_ERR_INTERNAL_ERROR with nothing found. -/
def j9bcv_fetchClassRelationshipSnippetsFromSharedCache (keyAllocOk : Bool)
    (outcome : CacheFindOutcome) : Bool × ReasonCode × Option DataBuffer :=
  if !keyAllocOk then (false, .BCV_ERR_INTERNAL_ERROR, none)
  else
    match outcome with
    | .foundData b => (true, .BCV_SUCCESS, some b)
    | .miss => (false, .BCV_SUCCESS, none)
    | .findError => (false, .BCV_ERR_INTERNAL_ERROR, none)

/-- j9bcv_storeClassRelationshipSnippetsToSharedCache's result as a
function of the outcomes of its fallible steps: nothing to store is
success; key-allocation failure is BCV_ERR_INTERNAL_ERROR; data-buffer
allocation failure is BCV_ERR_INSUFFICIENT_MEMORY; a NULL return from
storeSharedData is BCV_ERR_INTERNAL_ERROR. -/
def j9bcv_storeClassRelationshipSnippetsToSharedCache (snippetCount : Nat)
    (keyAllocOk bufferAllocOk cacheStoreOk : Bool) : ReasonCode :=
  if snippetCount = 0 then .BCV_SUCCESS
  else if !keyAllocOk then .BCV_ERR_INTERNAL_ERROR
  else if !bufferAllocOk then .BCV_ERR_INSUFFICIENT_MEMORY
  else if !cacheStoreOk then .BCV_ERR_INTERNAL_ERROR
  else .BCV_SUCCESS

/-- Modelled from the spec: the verifier-side driver that calls fetch,
process and store is not under src/ (only the fetch/store/process
functions themselves are).  Per the spec's data flow and error taxonomy,
the driver processes cached snippets when the fetch found them and
otherwise falls back to the local ephemeral table, afterwards attempting
a cache store whose result is not part of the verification verdict. -/
def verifierSnippetPass (env : VMEnv) (vd : J9BytecodeVerificationData)
    (snippets : List J9ClassRelationshipSnippet) (table : Option J9ClassRelationshipTable)
    (oracle : List Bool) (keyAllocOkFetch : Bool) (outcome : CacheFindOutcome)
    (keyAllocOkStore bufferAllocOk cacheStoreOk : Bool) : CheckResult :=
  let (foundSnippets, _fetchResult, descriptor) :=
    j9bcv_fetchClassRelationshipSnippetsFromSharedCache keyAllocOkFetch outcome
  match descriptor, foundSnippets with
  | some b, true =>
    match processClassRelationshipSnippetsUsingCachedData env b table oracle with
    | some r => r
    | none => ⟨.BCV_ERR_INTERNAL_ERROR, none, table, oracle⟩
  | _, _ =>
    let r := processClassRelationshipSnippetsNoCachedData env vd snippets table oracle
    let _storeResult := j9bcv_storeClassRelationshipSnippetsToSharedCache snippets.length
      keyAllocOkStore bufferAllocOk cacheStoreOk
    r

/-- An entry's pending obligation: a parent node or one of the two
flags. -/
def hasObligation (e : J9ClassRelationship) : Prop :=
  e.root ≠ [] ∨ e.flags.mustBeInterface = true ∨ e.flags.parentIsThrowable = true

/-- The parents sequence is ordered non-decreasing by class-name length
from head to tail. -/
def rootOrdered (root : List J9ClassRelationshipNode) : Prop :=
  root.Pairwise (fun a b => a.className.length ≤ b.className.length)

/-- No two nodes of the parents sequence share a name. -/
def rootNamesNodup (root : List J9ClassRelationshipNode) : Prop :=
  (root.map (fun n => n.className)).Nodup

/-- The parents sequence never contains a node for java/lang/Throwable. -/
def rootNoThrowable (root : List J9ClassRelationshipNode) : Prop :=
  ∀ n ∈ root, n.className ≠ J9RELATIONSHIP_JAVA_LANG_THROWABLE_STRING

/-- Structural well-formedness of a relationship table: unique child
keys, and every entry's parents sequence ordered, duplicate-free and
Throwable-free. -/
def TableWF (t : J9ClassRelationshipTable) : Prop :=
  (t.map (fun e => e.className)).Nodup ∧
    ∀ e ∈ t, rootOrdered e.root ∧ rootNamesNodup e.root ∧ rootNoThrowable e.root

/-- Well-formedness lifted to the lazily allocated table. -/
def OptTableWF : Option J9ClassRelationshipTable → Prop
  | none => True
  | some t => TableWF t

/-- Every entry of the table still has a pending obligation. -/
def TableObligations (t : J9ClassRelationshipTable) : Prop :=
  ∀ e ∈ t, hasObligation e

/-- Obligation invariant lifted to the lazily allocated table. -/
def OptTableObligations : Option J9ClassRelationshipTable → Prop
  | none => True
  | some t => TableObligations t

/-- Tables reachable from the initial (unallocated) state by any
sequence of record and validate operations, with arbitrary collaborator
answers and arbitrary allocation outcomes. -/
inductive Reachable : Option J9ClassRelationshipTable → Prop where
  | empty : Reachable none
  | record (childClassName parentClassName : ClassName) (oracle : List Bool)
      {table : Option J9ClassRelationshipTable} :
      Reachable table →
      Reachable (j9bcv_recordClassRelationship childClassName parentClassName table oracle).table
  | validate (env : VMEnv) (childClassName : ClassName) (childClass : J9Class)
      (oracle : List Bool) {table : Option J9ClassRelationshipTable} :
      Reachable table →
      Reachable (j9bcv_validateClassRelationships env table childClassName childClass oracle).table

/-- Tables reachable when every record operation completes successfully
(validate operations may still end any way, including allocation
failures inside the walk). -/
inductive ReachableOk : Option J9ClassRelationshipTable → Prop where
  | empty : ReachableOk none
  | record (childClassName parentClassName : ClassName) (oracle : List Bool)
      {table : Option J9ClassRelationshipTable} :
      ReachableOk table →
      (j9bcv_recordClassRelationship childClassName parentClassName table oracle).recordResult = true →
      ReachableOk (j9bcv_recordClassRelationship childClassName parentClassName table oracle).table
  | validate (env : VMEnv) (childClassName : ClassName) (childClass : J9Class)
      (oracle : List Bool) {table : Option J9ClassRelationshipTable} :
      ReachableOk table →
      ReachableOk (j9bcv_validateClassRelationships env table childClassName childClass oracle).table

/-! Table primitive lemmas. -/

theorem find_some_mem {t : J9ClassRelationshipTable} {name : ClassName} {e : J9ClassRelationship}
    (h : findClassRelationship t name = some e) : e ∈ t ∧ e.className = name := by
  induction t with
  | nil => simp [findClassRelationship] at h
  | cons x rest ih =>
    by_cases hx : x.className = name
    · simp [findClassRelationship, hx] at h
      subst h
      exact ⟨List.mem_cons_self x rest, hx⟩
    · simp [findClassRelationship, hx] at h
      obtain ⟨hm, he⟩ := ih h
      exact ⟨List.mem_cons_of_mem x hm, he⟩

theorem find_none_not_mem {t : J9ClassRelationshipTable} {name : ClassName}
    (h : findClassRelationship t name = none) :
    ∀ e ∈ t, e.className ≠ name := by
  induction t with
  | nil => simp
  | cons x rest ih =>
    by_cases hx : x.className = name
    · simp [findClassRelationship, hx] at h
    · simp [findClassRelationship, hx] at h
      intro e he
      rcases List.mem_cons.mp he with rfl | hm
      · exact hx
      · exact ih h e hm

theorem not_mem_find_none {t : J9ClassRelationshipTable} {name : ClassName}
    (h : ∀ e ∈ t, e.className ≠ name) : findClassRelationship t name = none := by
  induction t with
  | nil => rfl
  | cons x rest ih =>
    have hx : x.className ≠ name := h x (List.mem_cons_self x rest)
    simp [findClassRelationship, hx]
    exact ih (fun e he => h e (List.mem_cons_of_mem x he))

theorem find_append_of_some {t l : J9ClassRelationshipTable} {name : ClassName}
    {e : J9ClassRelationship} (h : findClassRelationship t name = some e) :
    findClassRelationship (t ++ l) name = some e := by
  induction t with
  | nil => simp [findClassRelationship] at h
  | cons x rest ih =>
    by_cases hx : x.className = name
    · simp [findClassRelationship, hx] at h ⊢
      exact h
    · simp [findClassRelationship, hx] at h ⊢
      exact ih h

theorem find_append_of_none {t l : J9ClassRelationshipTable} {name : ClassName}
    (h : findClassRelationship t name = none) :
    findClassRelationship (t ++ l) name = findClassRelationship l name := by
  induction t with
  | nil => simp [findClassRelationship]
  | cons x rest ih =>
    by_cases hx : x.className = name
    · simp [findClassRelationship, hx] at h
    · simp [findClassRelationship, hx] at h ⊢
      exact ih h

theorem find_update (f : J9ClassRelationship → J9ClassRelationship)
    {t : J9ClassRelationshipTable} {q p : ClassName}
    (hf : ∀ e, (f e).className = e.className) :
    findClassRelationship (updateClassRelationship t q f) p =
      if q = p then (findClassRelationship t p).map f else findClassRelationship t p := by
  induction t with
  | nil => by_cases h : q = p <;> simp [updateClassRelationship, findClassRelationship, h]
  | cons x rest ih =>
    by_cases hq : x.className = q
    · by_cases hp : x.className = p
      · have hqp : q = p := hp ▸ hq ▸ rfl
        have hfp : (f x).className = p := (hf x).trans hp
        simp only [updateClassRelationship, if_pos hq, findClassRelationship, if_pos hfp,
          if_pos hp, if_pos hqp, Option.map_some']
      · have hqp : q ≠ p := fun h => hp (h ▸ hq)
        have hfp : (f x).className ≠ p := fun h => hp ((hf x) ▸ h)
        simp only [updateClassRelationship, if_pos hq, findClassRelationship, if_neg hfp,
          if_neg hp, if_neg hqp]
    · by_cases hp : x.className = p
      · by_cases hqp : q = p
        · exact absurd (hqp ▸ hp) hq
        · simp only [updateClassRelationship, if_neg hq, findClassRelationship, if_pos hp,
            if_neg hqp]
      · simp only [updateClassRelationship, if_neg hq, findClassRelationship, if_neg hp, ih]

theorem keys_update (f : J9ClassRelationship → J9ClassRelationship)
    {t : J9ClassRelationshipTable} {q : ClassName}
    (hf : ∀ e, (f e).className = e.className) :
    (updateClassRelationship t q f).map (fun e => e.className) =
      t.map (fun e => e.className) := by
  induction t with
  | nil => rfl
  | cons x rest ih =>
    by_cases hq : x.className = q
    · simp [updateClassRelationship, hq, hf]
    · simp [updateClassRelationship, hq, ih]

theorem mem_update {t : J9ClassRelationshipTable} {q : ClassName}
    {f : J9ClassRelationship → J9ClassRelationship} {x : J9ClassRelationship}
    (h : x ∈ updateClassRelationship t q f) :
    x ∈ t ∨ ∃ e ∈ t, e.className = q ∧ x = f e := by
  induction t with
  | nil => simp [updateClassRelationship] at h
  | cons y rest ih =>
    by_cases hq : y.className = q
    · simp only [updateClassRelationship, if_pos hq] at h
      rcases List.mem_cons.mp h with rfl | hm
      · exact Or.inr ⟨y, List.mem_cons_self y rest, hq, rfl⟩
      · exact Or.inl (List.mem_cons_of_mem y hm)
    · simp only [updateClassRelationship, if_neg hq] at h
      rcases List.mem_cons.mp h with rfl | hm
      · exact Or.inl (List.mem_cons_self x rest)
      · rcases ih hm with h1 | ⟨e, he, heq, rfl⟩
        · exact Or.inl (List.mem_cons_of_mem y h1)
        · exact Or.inr ⟨e, List.mem_cons_of_mem y he, heq, rfl⟩

theorem remove_sublist (t : J9ClassRelationshipTable) (q : ClassName) :
    List.Sublist (removeClassRelationship t q) t := by
  induction t with
  | nil => simp [removeClassRelationship]
  | cons x rest ih =>
    by_cases hq : x.className = q
    · simp only [removeClassRelationship, if_pos hq]
      exact List.sublist_cons_self x rest
    · simp only [removeClassRelationship, if_neg hq]
      exact ih.cons₂ x

theorem find_remove_ne {t : J9ClassRelationshipTable} {q p : ClassName} (h : p ≠ q) :
    findClassRelationship (removeClassRelationship t q) p = findClassRelationship t p := by
  induction t with
  | nil => rfl
  | cons x rest ih =>
    by_cases hq : x.className = q
    · have hp : x.className ≠ p := fun hxp => h (hxp ▸ hq ▸ rfl)
      simp only [removeClassRelationship, if_pos hq, findClassRelationship, if_neg hp]
    · by_cases hp : x.className = p
      · simp only [removeClassRelationship, if_neg hq, findClassRelationship, if_pos hp]
      · simp only [removeClassRelationship, if_neg hq, findClassRelationship, if_neg hp, ih]

theorem find_remove_self {t : J9ClassRelationshipTable} {q : ClassName}
    (h : (t.map (fun e => e.className)).Nodup) :
    findClassRelationship (removeClassRelationship t q) q = none := by
  induction t with
  | nil => rfl
  | cons x rest ih =>
    simp only [List.map_cons, List.nodup_cons] at h
    by_cases hq : x.className = q
    · simp only [removeClassRelationship, if_pos hq]
      refine not_mem_find_none fun e he hn => ?_
      exact h.1 (hq ▸ hn ▸ List.mem_map_of_mem (fun e => e.className) he)
    · simp [removeClassRelationship, findClassRelationship, hq]
      exact ih h.2

theorem update_append_fresh {t : J9ClassRelationshipTable} {q : ClassName}
    {e : J9ClassRelationship} {f : J9ClassRelationship → J9ClassRelationship}
    (h : findClassRelationship t q = none) (he : e.className = q) :
    updateClassRelationship (t ++ [e]) q f = t ++ [f e] := by
  induction t with
  | nil => simp [updateClassRelationship, he]
  | cons x rest ih =>
    by_cases hx : x.className = q
    · simp [findClassRelationship, hx] at h
    · simp [findClassRelationship, hx] at h
      simp [updateClassRelationship, hx, ih h]

/-! insertParent lemmas: the walk's insertion point and the resulting
order/uniqueness structure. -/

theorem insertParent_eq_some {root : List J9ClassRelationshipNode} {p : ClassName}
    {r : List J9ClassRelationshipNode} (h : insertParent root p = some r) :
    ∃ l1 l2, root = l1 ++ l2 ∧ r = l1 ++ ⟨p⟩ :: l2 ∧
      (∀ n ∈ l1, n.className.length ≤ p.length ∧ n.className ≠ p) ∧
      (∀ n, l2.head? = some n → p.length < n.className.length) := by
  induction root generalizing r with
  | nil =>
    simp only [insertParent, Option.some.injEq] at h
    exact ⟨[], [], rfl, by simp [h.symm], by simp, by simp⟩
  | cons walk rest ih =>
    by_cases hlen : walk.className.length > p.length
    · simp only [insertParent, if_pos hlen, Option.some.injEq] at h
      refine ⟨[], walk :: rest, rfl, by simp [h.symm], by simp, ?_⟩
      intro n hn
      simp only [List.head?_cons, Option.some.injEq] at hn
      exact hn ▸ hlen
    · by_cases heq : walk.className = p
      · simp [insertParent, if_neg hlen, heq] at h
      · simp only [insertParent, if_neg hlen, if_neg heq, Option.map_eq_some'] at h
        obtain ⟨r', hr', rfl⟩ := h
        obtain ⟨l1, l2, hroot, hr, hl1, hl2⟩ := ih hr'
        refine ⟨walk :: l1, l2, by simp [hroot], by simp [hr], ?_, hl2⟩
        intro n hn
        rcases List.mem_cons.mp hn with rfl | hm
        · exact ⟨Nat.le_of_not_lt hlen, heq⟩
        · exact hl1 n hm

theorem insertParent_of_mem {root : List J9ClassRelationshipNode} {p : ClassName}
    (hsort : rootOrdered root) (hmem : p ∈ root.map (fun n => n.className)) :
    insertParent root p = none := by
  induction root with
  | nil => simp at hmem
  | cons walk rest ih =>
    simp only [List.map_cons, List.mem_cons] at hmem
    by_cases hlen : walk.className.length > p.length
    · exfalso
      rcases hmem with hmem | hmem
      · exact Nat.lt_irrefl _ (hmem ▸ hlen)
      · obtain ⟨n, hn, hnp⟩ := List.mem_map.mp hmem
        have h1 : walk.className.length ≤ n.className.length :=
          (List.pairwise_cons.mp hsort).1 n hn
        have h2 : n.className.length = p.length := by rw [hnp]
        omega
    · by_cases heq : walk.className = p
      · simp [insertParent, if_neg hlen, heq]
      · rcases hmem with hmem | hmem
        · exact absurd (hmem.symm ▸ rfl) heq
        · simp only [insertParent, if_neg hlen, if_neg heq]
          rw [ih (List.pairwise_cons.mp hsort).2 hmem]
          rfl

theorem insertParent_ordered {root : List J9ClassRelationshipNode} {p : ClassName}
    {r : List J9ClassRelationshipNode} (hsort : rootOrdered root)
    (h : insertParent root p = some r) : rootOrdered r := by
  obtain ⟨l1, l2, hroot, hr, hl1, hl2⟩ := insertParent_eq_some h
  subst hroot hr
  have hsp := (List.pairwise_append.mp hsort)
  have hl2all : ∀ n ∈ l2, p.length ≤ n.className.length := by
    intro n hn
    cases l2 with
    | nil => simp at hn
    | cons hd tl =>
      have hhd : p.length < hd.className.length := hl2 hd rfl
      rcases List.mem_cons.mp hn with rfl | hm
      · exact Nat.le_of_lt hhd
      · have : hd.className.length ≤ n.className.length :=
          (List.pairwise_cons.mp hsp.2.1).1 n hm
        omega
  refine List.pairwise_append.mpr ⟨hsp.1, ?_, ?_⟩
  · refine List.pairwise_cons.mpr ⟨hl2all, hsp.2.1⟩
  · intro a ha b hb
    rcases List.mem_cons.mp hb with rfl | hm
    · exact (hl1 a ha).1
    · exact hsp.2.2 a ha b hm

theorem insertParent_nodup {root : List J9ClassRelationshipNode} {p : ClassName}
    {r : List J9ClassRelationshipNode} (hsort : rootOrdered root)
    (hnd : rootNamesNodup root) (h : insertParent root p = some r) : rootNamesNodup r := by
  obtain ⟨l1, l2, hroot, hr, hl1, hl2⟩ := insertParent_eq_some h
  subst hroot hr
  have hl2all : ∀ n ∈ l2, p.length < n.className.length := by
    intro n hn
    have hsp := (List.pairwise_append.mp hsort)
    cases l2 with
    | nil => simp at hn
    | cons hd tl =>
      have hhd : p.length < hd.className.length := hl2 hd rfl
      rcases List.mem_cons.mp hn with rfl | hm
      · exact hhd
      · have : hd.className.length ≤ n.className.length :=
          (List.pairwise_cons.mp hsp.2.1).1 n hm
        omega
  unfold rootNamesNodup at hnd ⊢
  simp only [List.map_append, List.map_cons] at hnd ⊢
  rw [List.nodup_append] at hnd ⊢
  refine ⟨hnd.1, ?_, ?_⟩
  · refine List.nodup_cons.mpr ⟨?_, hnd.2.1⟩
    intro hmem
    obtain ⟨n, hn, hnp⟩ := List.mem_map.mp hmem
    have := hl2all n hn
    rw [hnp] at this
    exact Nat.lt_irrefl _ this
  · intro a ha hb
    obtain ⟨n1, hn1, rfl⟩ := List.mem_map.mp ha
    rcases List.mem_cons.mp hb with h1 | hmb
    · exact (hl1 n1 hn1).2 h1
    · exact hnd.2.2 ha hmb

theorem insertParent_names {root : List J9ClassRelationshipNode} {p : ClassName}
    {r : List J9ClassRelationshipNode} (h : insertParent root p = some r) :
    ∀ n ∈ r, n.className = p ∨ n ∈ root := by
  obtain ⟨l1, l2, hroot, hr, _, _⟩ := insertParent_eq_some h
  subst hroot hr
  intro n hn
  rcases List.mem_append.mp hn with hm | hm
  · exact Or.inr (List.mem_append.mpr (Or.inl hm))
  · rcases List.mem_cons.mp hm with rfl | hm2
    · exact Or.inl rfl
    · exact Or.inr (List.mem_append.mpr (Or.inr hm2))

theorem insertParent_ne_nil {root : List J9ClassRelationshipNode} {p : ClassName}
    {r : List J9ClassRelationshipNode} (h : insertParent root p = some r) : r ≠ [] := by
  obtain ⟨l1, l2, _, hr, _, _⟩ := insertParent_eq_some h
  subst hr
  simp

/-! Path characterizations of the record operation. -/

/-- Flag update applied on the Throwable shortcut path. -/
def setThrowable (e : J9ClassRelationship) : J9ClassRelationship :=
  { e with flags := { e.flags with parentIsThrowable := true } }

/-- Flag update applied when validate propagates MUST_BE_INTERFACE. -/
def setMustBeInterface (e : J9ClassRelationship) : J9ClassRelationship :=
  { e with flags := { e.flags with mustBeInterface := true } }

theorem recordParentIntoEntry_spec (c p : ClassName) (entry : J9ClassRelationship)
    (t : J9ClassRelationshipTable) (o : List Bool) :
    (p = J9RELATIONSHIP_JAVA_LANG_THROWABLE_STRING ∧
      recordParentIntoEntry c p entry t o = ⟨true, .BCV_SUCCESS,
        some (updateClassRelationship t c setThrowable), o⟩) ∨
    (p ≠ J9RELATIONSHIP_JAVA_LANG_THROWABLE_STRING ∧ insertParent entry.root p = none ∧
      recordParentIntoEntry c p entry t o = ⟨true, .BCV_SUCCESS, some t, o⟩) ∨
    (p ≠ J9RELATIONSHIP_JAVA_LANG_THROWABLE_STRING ∧
      ∃ newRoot o', insertParent entry.root p = some newRoot ∧
        recordParentIntoEntry c p entry t o = ⟨true, .BCV_SUCCESS,
          some (updateClassRelationship t c (fun e => { e with root := newRoot })), o'⟩) ∨
    ((recordParentIntoEntry c p entry t o).recordResult = false ∧
      (recordParentIntoEntry c p entry t o).reasonCode = .BCV_ERR_INSUFFICIENT_MEMORY ∧
      (recordParentIntoEntry c p entry t o).table = some t) := by
  by_cases hp : p = J9RELATIONSHIP_JAVA_LANG_THROWABLE_STRING
  · refine Or.inl ⟨hp, ?_⟩
    simp only [recordParentIntoEntry, if_pos hp]
    rfl
  · cases hins : insertParent entry.root p with
    | none =>
      refine Or.inr (Or.inl ⟨hp, rfl, ?_⟩)
      simp only [recordParentIntoEntry, if_neg hp, hins]
    | some newRoot =>
      rcases h1 : alloc o with ⟨ok1, o1⟩
      cases ok1 with
      | false =>
        refine Or.inr (Or.inr (Or.inr ?_))
        simp [recordParentIntoEntry, hp, hins, h1]
      | true =>
        rcases h2 : alloc o1 with ⟨ok2, o2⟩
        cases ok2 with
        | false =>
          refine Or.inr (Or.inr (Or.inr ?_))
          simp [recordParentIntoEntry, hp, hins, h1, h2]
        | true =>
          refine Or.inr (Or.inr (Or.inl ⟨hp, newRoot, o2, rfl, ?_⟩))
          simp [recordParentIntoEntry, hp, hins, h1, h2]

theorem insertParent_none_ne_nil {root : List J9ClassRelationshipNode} {p : ClassName}
    (h : insertParent root p = none) : root ≠ [] := by
  intro hnil
  subst hnil
  simp [insertParent] at h

theorem find_eq_of_mem {t : J9ClassRelationshipTable} {e : J9ClassRelationship}
    {name : ClassName} (hnd : (t.map (fun x => x.className)).Nodup)
    (hm : e ∈ t) (he : e.className = name) : findClassRelationship t name = some e := by
  induction t with
  | nil => simp at hm
  | cons x rest ih =>
    simp only [List.map_cons, List.nodup_cons] at hnd
    rcases List.mem_cons.mp hm with rfl | hm2
    · simp [findClassRelationship, he]
    · have hx : x.className ≠ name := by
        intro hxn
        have hmap : e.className ∈ rest.map (fun y => y.className) :=
          List.mem_map_of_mem (fun y => y.className) hm2
        rw [he, ← hxn] at hmap
        exact hnd.1 hmap
      simp only [findClassRelationship, if_neg hx]
      exact ih hnd.2 hm2

/-! Well-formedness preservation by record. -/

theorem TableWF_update_flag {t : J9ClassRelationshipTable} {c : ClassName}
    {f : J9ClassRelationship → J9ClassRelationship}
    (hf : ∀ e, (f e).className = e.className) (hfr : ∀ e, (f e).root = e.root)
    (h : TableWF t) : TableWF (updateClassRelationship t c f) := by
  constructor
  · rw [keys_update f hf]
    exact h.1
  · intro e he
    rcases mem_update he with hm | ⟨x, hx, _, rfl⟩
    · exact h.2 e hm
    · rw [hfr x]
      exact h.2 x hx

theorem recordParentIntoEntry_WF {c p : ClassName} {entry : J9ClassRelationship}
    {t : J9ClassRelationshipTable} {o : List Bool} (hwf : TableWF t)
    (hfind : findClassRelationship t c = some entry) :
    OptTableWF (recordParentIntoEntry c p entry t o).table := by
  rcases recordParentIntoEntry_spec c p entry t o with
    ⟨hp, heq⟩ | ⟨hp, hins, heq⟩ | ⟨hp, newRoot, o', hins, heq⟩ | ⟨_, _, heq⟩
  · rw [heq]
    exact TableWF_update_flag (fun e => rfl) (fun e => rfl) hwf
  · rw [heq]
    exact hwf
  · rw [heq]
    have hmem := find_some_mem hfind
    have hroot := hwf.2 entry hmem.1
    refine ⟨?_, ?_⟩
    · rw [keys_update (fun e => { e with root := newRoot }) (fun e => rfl)]
      exact hwf.1
    intro e he
    rcases mem_update he with hm | ⟨x, hx, hxc, rfl⟩
    · exact hwf.2 e hm
    · have hxe : x = entry := by
        have : findClassRelationship t c = some x := find_eq_of_mem hwf.1 hx hxc
        rw [hfind] at this
        exact (Option.some.inj this).symm
      subst hxe
      refine ⟨insertParent_ordered hroot.1 hins, insertParent_nodup hroot.1 hroot.2.1 hins, ?_⟩
      intro n hn
      rcases insertParent_names hins n hn with hnp | hm2
      · exact hnp ▸ hp
      · exact hroot.2.2 n hm2
  · rw [heq]
    exact hwf

theorem mem_update_precise {t : J9ClassRelationshipTable} {q : ClassName}
    {f : J9ClassRelationship → J9ClassRelationship} {entry x : J9ClassRelationship}
    (hnd : (t.map (fun e => e.className)).Nodup)
    (hfind : findClassRelationship t q = some entry)
    (h : x ∈ updateClassRelationship t q f) :
    (x ∈ t ∧ x.className ≠ q) ∨ x = f entry := by
  induction t with
  | nil => simp [updateClassRelationship] at h
  | cons y rest ih =>
    simp only [List.map_cons, List.nodup_cons] at hnd
    by_cases hy : y.className = q
    · simp only [findClassRelationship, if_pos hy, Option.some.injEq] at hfind
      simp only [updateClassRelationship, if_pos hy] at h
      rcases List.mem_cons.mp h with rfl | hm
      · exact Or.inr (by rw [hfind])
      · refine Or.inl ⟨List.mem_cons_of_mem y hm, ?_⟩
        intro hxq
        exact hnd.1 (hy ▸ hxq ▸ List.mem_map_of_mem (fun e => e.className) hm)
    · simp only [findClassRelationship, if_neg hy] at hfind
      simp only [updateClassRelationship, if_neg hy] at h
      rcases List.mem_cons.mp h with rfl | hm
      · exact Or.inl ⟨List.mem_cons_self x rest, hy⟩
      · rcases ih hnd.2 hfind hm with ⟨h1, h2⟩ | h3
        · exact Or.inl ⟨List.mem_cons_of_mem y h1, h2⟩
        · exact Or.inr h3

theorem TableWF_nil : TableWF [] := ⟨List.nodup_nil, by simp⟩

theorem TableWF_append_fresh {t : J9ClassRelationshipTable} {e : J9ClassRelationship}
    (hwf : TableWF t) (hfresh : findClassRelationship t e.className = none)
    (he : rootOrdered e.root ∧ rootNamesNodup e.root ∧ rootNoThrowable e.root) :
    TableWF (t ++ [e]) := by
  constructor
  · rw [List.map_append]
    refine List.Nodup.append hwf.1 (by simp) ?_
    intro a ha hb
    simp only [List.map_cons, List.map_nil, List.mem_singleton] at hb
    obtain ⟨x, hx, hxa⟩ := List.mem_map.mp ha
    exact find_none_not_mem hfresh x hx (hxa.trans hb)
  · intro x hx
    rcases List.mem_append.mp hx with hm | hm
    · exact hwf.2 x hm
    · rw [List.mem_singleton.mp hm]
      exact he

theorem recordWithTable_WF {c p : ClassName} {t : J9ClassRelationshipTable} {o : List Bool}
    (hwf : TableWF t) : OptTableWF (recordWithTable c p t o).table := by
  unfold recordWithTable
  cases hfind : findClassRelationship t c with
  | some entry => exact recordParentIntoEntry_WF hwf hfind
  | none =>
    rcases h1 : alloc o with ⟨ok1, o1⟩
    cases ok1 with
    | false =>
      simp [h1]
      exact hwf
    | true =>
      rcases h2 : alloc o1 with ⟨ok2, o2⟩
      cases ok2 with
      | false =>
        simp [h1, h2]
        exact hwf
      | true =>
        simp only [h1, h2]
        simp only [Bool.not_true, Bool.false_eq_true, if_false]
        have hwf2 : TableWF (t ++ [⟨c, ⟨false, false⟩, []⟩]) :=
          TableWF_append_fresh hwf hfind ⟨List.Pairwise.nil, List.nodup_nil, by simp [rootNoThrowable]⟩
        have hfind2 : findClassRelationship (t ++ [⟨c, ⟨false, false⟩, []⟩]) c =
            some ⟨c, ⟨false, false⟩, []⟩ := by
          rw [find_append_of_none hfind]
          simp [findClassRelationship]
        exact recordParentIntoEntry_WF hwf2 hfind2

theorem j9bcv_recordClassRelationship_WF {c p : ClassName}
    {table : Option J9ClassRelationshipTable} {o : List Bool}
    (hwf : OptTableWF table) :
    OptTableWF (j9bcv_recordClassRelationship c p table o).table := by
  cases table with
  | some t => exact recordWithTable_WF hwf
  | none =>
    unfold j9bcv_recordClassRelationship
    rcases h1 : alloc o with ⟨ok1, o1⟩
    cases ok1 with
    | false => simp [h1]; trivial
    | true =>
      rcases h2 : alloc o1 with ⟨ok2, o2⟩
      cases ok2 with
      | false =>
        simp [h1, h2]
        exact TableWF_nil
      | true =>
        simp only [h1, h2]
        simp only [Bool.not_true, Bool.false_eq_true, if_false]
        exact recordWithTable_WF TableWF_nil

/-! Obligation preservation by a successful record. -/

theorem recordParentIntoEntry_Obl {c p : ClassName} {entry : J9ClassRelationship}
    {t : J9ClassRelationshipTable} {o : List Bool}
    (hnd : (t.map (fun e => e.className)).Nodup)
    (hfind : findClassRelationship t c = some entry)
    (hobl : ∀ e ∈ t, e.className ≠ c → hasObligation e)
    (hsucc : (recordParentIntoEntry c p entry t o).recordResult = true) :
    OptTableObligations (recordParentIntoEntry c p entry t o).table := by
  rcases recordParentIntoEntry_spec c p entry t o with
    ⟨hp, heq⟩ | ⟨hp, hins, heq⟩ | ⟨hp, newRoot, o', hins, heq⟩ | ⟨hfail, _, _⟩
  · rw [heq]
    intro e he
    rcases mem_update_precise hnd hfind he with ⟨h1, h2⟩ | rfl
    · exact hobl e h1 h2
    · exact Or.inr (Or.inr rfl)
  · rw [heq]
    intro e he
    by_cases hec : e.className = c
    · have : findClassRelationship t c = some e := find_eq_of_mem hnd he hec
      rw [hfind] at this
      have he2 : entry = e := Option.some.inj this
      exact Or.inl (he2 ▸ insertParent_none_ne_nil hins)
    · exact hobl e he hec
  · rw [heq]
    intro e he
    rcases mem_update_precise hnd hfind he with ⟨h1, h2⟩ | rfl
    · exact hobl e h1 h2
    · exact Or.inl (insertParent_ne_nil hins)
  · rw [hfail] at hsucc
    exact absurd hsucc (by simp)

theorem recordWithTable_Obl {c p : ClassName} {t : J9ClassRelationshipTable} {o : List Bool}
    (hwf : TableWF t) (hobl : TableObligations t)
    (hsucc : (recordWithTable c p t o).recordResult = true) :
    OptTableObligations (recordWithTable c p t o).table := by
  unfold recordWithTable at hsucc ⊢
  cases hfind : findClassRelationship t c with
  | some entry =>
    rw [hfind] at hsucc
    exact recordParentIntoEntry_Obl hwf.1 hfind (fun e he _ => hobl e he) hsucc
  | none =>
    rw [hfind] at hsucc
    rcases h1 : alloc o with ⟨ok1, o1⟩
    cases ok1 with
    | false =>
      simp [h1] at hsucc
    | true =>
      rcases h2 : alloc o1 with ⟨ok2, o2⟩
      cases ok2 with
      | false =>
        simp [h1, h2] at hsucc
      | true =>
        simp only [h1, h2] at hsucc ⊢
        simp only [Bool.not_true, Bool.false_eq_true, if_false] at hsucc ⊢
        have hwf2 : TableWF (t ++ [⟨c, ⟨false, false⟩, []⟩]) :=
          TableWF_append_fresh hwf hfind ⟨List.Pairwise.nil, List.nodup_nil, by simp [rootNoThrowable]⟩
        have hfind2 : findClassRelationship (t ++ [⟨c, ⟨false, false⟩, []⟩]) c =
            some ⟨c, ⟨false, false⟩, []⟩ := by
          rw [find_append_of_none hfind]
          simp [findClassRelationship]
        refine recordParentIntoEntry_Obl hwf2.1 hfind2 ?_ hsucc
        intro e he hec
        rcases List.mem_append.mp he with hm | hm
        · exact hobl e hm
        · rw [List.mem_singleton.mp hm] at hec
          exact absurd rfl hec

theorem j9bcv_recordClassRelationship_Obl {c p : ClassName}
    {table : Option J9ClassRelationshipTable} {o : List Bool}
    (hwf : OptTableWF table) (hobl : OptTableObligations table)
    (hsucc : (j9bcv_recordClassRelationship c p table o).recordResult = true) :
    OptTableObligations (j9bcv_recordClassRelationship c p table o).table := by
  cases table with
  | some t => exact recordWithTable_Obl hwf hobl hsucc
  | none =>
    unfold j9bcv_recordClassRelationship at hsucc ⊢
    rcases h1 : alloc o with ⟨ok1, o1⟩
    cases ok1 with
    | false =>
      simp [h1] at hsucc
    | true =>
      rcases h2 : alloc o1 with ⟨ok2, o2⟩
      cases ok2 with
      | false =>
        simp [h1, h2] at hsucc
      | true =>
        simp only [h1, h2] at hsucc ⊢
        simp only [Bool.not_true, Bool.false_eq_true, if_false] at hsucc ⊢
        exact recordWithTable_Obl TableWF_nil (by intro e he; simp at he) hsucc

/-! validateWalk lemmas. -/

theorem validateWalk_WF {env : VMEnv} {cc : J9Class} {nodes : List J9ClassRelationshipNode}
    {t : J9ClassRelationshipTable} {o : List Bool} (hwf : TableWF t) :
    TableWF (validateWalk env cc nodes t o).2.1 := by
  induction nodes generalizing t o with
  | nil => exact hwf
  | cons n rest ih =>
    unfold validateWalk
    cases hluk : env.hashClassTableAt n.className with
    | none =>
      cases hfind : findClassRelationship t n.className with
      | none =>
        rcases h1 : alloc o with ⟨ok1, o1⟩
        cases ok1 with
        | false => simp [h1]; exact hwf
        | true =>
          rcases h2 : alloc o1 with ⟨ok2, o2⟩
          cases ok2 with
          | false => simp [h1, h2]; exact hwf
          | true =>
            simp only [h1, h2]
            simp only [Bool.not_true, Bool.false_eq_true, if_false]
            refine ih ?_
            refine TableWF_append_fresh hwf hfind
              ⟨List.Pairwise.nil, List.nodup_nil, by simp [rootNoThrowable]⟩
      | some e =>
        simp only []
        refine ih ?_
        exact TableWF_update_flag (fun x => rfl) (fun x => rfl) hwf
    | some pc =>
      cases hi : pc.isInterface with
      | true => simp only [hi, if_true]; exact ih hwf
      | false =>
        cases hs : env.isSameOrSuperClassOf pc cc with
        | true =>
          simp only [hi, hs, Bool.false_eq_true, if_false, if_true]
          exact ih hwf
        | false =>
          simp only [hi, hs, Bool.false_eq_true, if_false]
          exact hwf

theorem validateWalk_Obl {env : VMEnv} {cc : J9Class} {nodes : List J9ClassRelationshipNode}
    {t : J9ClassRelationshipTable} {o : List Bool} (hobl : TableObligations t) :
    TableObligations (validateWalk env cc nodes t o).2.1 := by
  induction nodes generalizing t o with
  | nil => exact hobl
  | cons n rest ih =>
    unfold validateWalk
    cases hluk : env.hashClassTableAt n.className with
    | none =>
      cases hfind : findClassRelationship t n.className with
      | none =>
        rcases h1 : alloc o with ⟨ok1, o1⟩
        cases ok1 with
        | false => simp [h1]; exact hobl
        | true =>
          rcases h2 : alloc o1 with ⟨ok2, o2⟩
          cases ok2 with
          | false => simp [h1, h2]; exact hobl
          | true =>
            simp only [h1, h2]
            simp only [Bool.not_true, Bool.false_eq_true, if_false]
            refine ih ?_
            intro e he
            rcases List.mem_append.mp he with hm | hm
            · exact hobl e hm
            · rw [List.mem_singleton.mp hm]
              exact Or.inr (Or.inl rfl)
      | some e =>
        simp only []
        refine ih ?_
        intro x hx
        rcases mem_update hx with hm | ⟨y, hy, _, rfl⟩
        · exact hobl x hm
        · exact Or.inr (Or.inl rfl)
    | some pc =>
      cases hi : pc.isInterface with
      | true => simp only [hi, if_true]; exact ih hobl
      | false =>
        cases hs : env.isSameOrSuperClassOf pc cc with
        | true =>
          simp only [hi, hs, Bool.false_eq_true, if_false, if_true]
          exact ih hobl
        | false =>
          simp only [hi, hs, Bool.false_eq_true, if_false]
          exact hobl

theorem TableWF_remove {t : J9ClassRelationshipTable} {q : ClassName} (hwf : TableWF t) :
    TableWF (removeClassRelationship t q) := by
  constructor
  · exact ((remove_sublist t q).map (fun e => e.className)).nodup hwf.1
  · intro e he
    exact hwf.2 e ((remove_sublist t q).mem he)

theorem TableObligations_remove {t : J9ClassRelationshipTable} {q : ClassName}
    (hobl : TableObligations t) : TableObligations (removeClassRelationship t q) :=
  fun e he => hobl e ((remove_sublist t q).mem he)

theorem validateWithTable_WF {env : VMEnv} {c : ClassName} {cc : J9Class}
    {t : J9ClassRelationshipTable} {o : List Bool} (hwf : TableWF t) :
    TableWF (validateWithTable env c cc t o).2.1 := by
  unfold validateWithTable
  cases hfind : findClassRelationship t c with
  | none => exact hwf
  | some entry =>
    by_cases h1 : (entry.flags.mustBeInterface && !cc.isInterface) = true
    · simp only [if_pos h1]
      exact hwf
    · simp only [if_neg h1]
      by_cases h2 : (entry.flags.parentIsThrowable
          && !(env.isSameOrSuperClassOf env.throwableClass cc)) = true
      · simp only [if_pos h2]
        exact hwf
      · simp only [if_neg h2]
        have hwalk := @validateWalk_WF env cc entry.root t o hwf
        rcases hw : validateWalk env cc entry.root t o with ⟨r, t1, o1⟩
        rw [hw] at hwalk
        cases r with
        | some fc => exact hwalk
        | none => exact TableWF_remove hwalk

theorem j9bcv_validateClassRelationships_WF {env : VMEnv}
    {table : Option J9ClassRelationshipTable} {c : ClassName} {cc : J9Class} {o : List Bool}
    (hwf : OptTableWF table) :
    OptTableWF (j9bcv_validateClassRelationships env table c cc o).table := by
  cases table with
  | none => trivial
  | some t =>
    have hv := @validateWithTable_WF env c cc t o hwf
    rcases hw : validateWithTable env c cc t o with ⟨r0, t0, o0⟩
    rw [hw] at hv
    simp only [j9bcv_validateClassRelationships, hw]
    exact hv

theorem validateWithTable_Obl {env : VMEnv} {c : ClassName} {cc : J9Class}
    {t : J9ClassRelationshipTable} {o : List Bool} (hobl : TableObligations t) :
    TableObligations (validateWithTable env c cc t o).2.1 := by
  unfold validateWithTable
  cases hfind : findClassRelationship t c with
  | none => exact hobl
  | some entry =>
    by_cases h1 : (entry.flags.mustBeInterface && !cc.isInterface) = true
    · simp only [if_pos h1]
      exact hobl
    · simp only [if_neg h1]
      by_cases h2 : (entry.flags.parentIsThrowable
          && !(env.isSameOrSuperClassOf env.throwableClass cc)) = true
      · simp only [if_pos h2]
        exact hobl
      · simp only [if_neg h2]
        have hwalk := @validateWalk_Obl env cc entry.root t o hobl
        rcases hw : validateWalk env cc entry.root t o with ⟨r, t1, o1⟩
        rw [hw] at hwalk
        cases r with
        | some fc => exact hwalk
        | none => exact TableObligations_remove hwalk

theorem j9bcv_validateClassRelationships_Obl {env : VMEnv}
    {table : Option J9ClassRelationshipTable} {c : ClassName} {cc : J9Class} {o : List Bool}
    (hobl : OptTableObligations table) :
    OptTableObligations (j9bcv_validateClassRelationships env table c cc o).table := by
  cases table with
  | none => trivial
  | some t =>
    have hv := @validateWithTable_Obl env c cc t o hobl
    rcases hw : validateWithTable env c cc t o with ⟨r0, t0, o0⟩
    rw [hw] at hv
    simp only [j9bcv_validateClassRelationships, hw]
    exact hv

/-! Reachability invariants. -/

theorem Reachable_WF {table : Option J9ClassRelationshipTable} (h : Reachable table) :
    OptTableWF table := by
  induction h with
  | empty => trivial
  | record c p o _ ih => exact j9bcv_recordClassRelationship_WF ih
  | validate env c cc o _ ih => exact j9bcv_validateClassRelationships_WF ih

theorem ReachableOk_toReachable {table : Option J9ClassRelationshipTable}
    (h : ReachableOk table) : Reachable table := by
  induction h with
  | empty => exact .empty
  | record c p o _ hs ih => exact .record c p o ih
  | validate env c cc o _ ih => exact .validate env c cc o ih

theorem ReachableOk_Obl {table : Option J9ClassRelationshipTable} (h : ReachableOk table) :
    OptTableObligations table := by
  induction h with
  | empty => trivial
  | record c p o hprev hs ih =>
    exact j9bcv_recordClassRelationship_Obl (Reachable_WF (ReachableOk_toReachable hprev)) ih hs
  | validate env c cc o _ ih => exact j9bcv_validateClassRelationships_Obl ih

/-! Walk decomposition and monotonicity.  The step lemmas resolve one
iteration of validateWalk under given collaborator answers. -/

theorem validateWalk_nil (env : VMEnv) (cc : J9Class) (t : J9ClassRelationshipTable)
    (o : List Bool) : validateWalk env cc [] t o = (none, t, o) := rfl

theorem validateWalk_step_oom1 {env : VMEnv} {cc : J9Class} {n : J9ClassRelationshipNode}
    {rest : List J9ClassRelationshipNode} {t : J9ClassRelationshipTable} {o o1 : List Bool}
    (hluk : env.hashClassTableAt n.className = none)
    (hfind : findClassRelationship t n.className = none)
    (h1 : alloc o = (false, o1)) :
    validateWalk env cc (n :: rest) t o = (some cc, t, o1) := by
  simp [validateWalk, hluk, hfind, h1]

theorem validateWalk_step_oom2 {env : VMEnv} {cc : J9Class} {n : J9ClassRelationshipNode}
    {rest : List J9ClassRelationshipNode} {t : J9ClassRelationshipTable} {o o1 o2 : List Bool}
    (hluk : env.hashClassTableAt n.className = none)
    (hfind : findClassRelationship t n.className = none)
    (h1 : alloc o = (true, o1)) (h2 : alloc o1 = (false, o2)) :
    validateWalk env cc (n :: rest) t o = (some cc, t, o2) := by
  simp [validateWalk, hluk, hfind, h1, h2]

theorem validateWalk_step_new {env : VMEnv} {cc : J9Class} {n : J9ClassRelationshipNode}
    {rest : List J9ClassRelationshipNode} {t : J9ClassRelationshipTable} {o o1 o2 : List Bool}
    (hluk : env.hashClassTableAt n.className = none)
    (hfind : findClassRelationship t n.className = none)
    (h1 : alloc o = (true, o1)) (h2 : alloc o1 = (true, o2)) :
    validateWalk env cc (n :: rest) t o =
      validateWalk env cc rest (t ++ [⟨n.className, ⟨true, false⟩, []⟩]) o2 := by
  simp [validateWalk, hluk, hfind, h1, h2]

theorem validateWalk_step_update {env : VMEnv} {cc : J9Class} {n : J9ClassRelationshipNode}
    {rest : List J9ClassRelationshipNode} {t : J9ClassRelationshipTable} {o : List Bool}
    {e : J9ClassRelationship} (hluk : env.hashClassTableAt n.className = none)
    (hfind : findClassRelationship t n.className = some e) :
    validateWalk env cc (n :: rest) t o =
      validateWalk env cc rest (updateClassRelationship t n.className
        (fun y => { y with flags := { y.flags with mustBeInterface := true } })) o := by
  simp [validateWalk, hluk, hfind]

theorem validateWalk_step_interface {env : VMEnv} {cc : J9Class} {n : J9ClassRelationshipNode}
    {rest : List J9ClassRelationshipNode} {t : J9ClassRelationshipTable} {o : List Bool}
    {pc : J9Class} (hluk : env.hashClassTableAt n.className = some pc)
    (hi : pc.isInterface = true) :
    validateWalk env cc (n :: rest) t o = validateWalk env cc rest t o := by
  simp [validateWalk, hluk, hi]

theorem validateWalk_step_super {env : VMEnv} {cc : J9Class} {n : J9ClassRelationshipNode}
    {rest : List J9ClassRelationshipNode} {t : J9ClassRelationshipTable} {o : List Bool}
    {pc : J9Class} (hluk : env.hashClassTableAt n.className = some pc)
    (hi : pc.isInterface = false) (hs : env.isSameOrSuperClassOf pc cc = true) :
    validateWalk env cc (n :: rest) t o = validateWalk env cc rest t o := by
  simp [validateWalk, hluk, hi, hs]

theorem validateWalk_step_fail {env : VMEnv} {cc : J9Class} {n : J9ClassRelationshipNode}
    {rest : List J9ClassRelationshipNode} {t : J9ClassRelationshipTable} {o : List Bool}
    {pc : J9Class} (hluk : env.hashClassTableAt n.className = some pc)
    (hi : pc.isInterface = false) (hs : env.isSameOrSuperClassOf pc cc = false) :
    validateWalk env cc (n :: rest) t o = (some pc, t, o) := by
  simp [validateWalk, hluk, hi, hs]

theorem validateWalk_append_none {env : VMEnv} {cc : J9Class}
    {l1 : List J9ClassRelationshipNode} (l2 : List J9ClassRelationshipNode)
    {t t1 : J9ClassRelationshipTable} {o o1 : List Bool}
    (h : validateWalk env cc l1 t o = (none, t1, o1)) :
    validateWalk env cc (l1 ++ l2) t o = validateWalk env cc l2 t1 o1 := by
  induction l1 generalizing t o with
  | nil =>
    rw [validateWalk_nil] at h
    simp only [Prod.mk.injEq] at h
    rw [List.nil_append, h.2.1, h.2.2]
  | cons n rest ih =>
    rw [List.cons_append]
    cases hluk : env.hashClassTableAt n.className with
    | none =>
      cases hfind : findClassRelationship t n.className with
      | none =>
        rcases h1 : alloc o with ⟨ok1, o1x⟩
        cases ok1 with
        | false =>
          rw [validateWalk_step_oom1 hluk hfind h1] at h
          simp only [Prod.mk.injEq] at h
          exact absurd h.1 (by simp)
        | true =>
          rcases h2 : alloc o1x with ⟨ok2, o2⟩
          cases ok2 with
          | false =>
            rw [validateWalk_step_oom2 hluk hfind h1 h2] at h
            simp only [Prod.mk.injEq] at h
            exact absurd h.1 (by simp)
          | true =>
            rw [validateWalk_step_new hluk hfind h1 h2] at h
            rw [validateWalk_step_new hluk hfind h1 h2]
            exact ih h
      | some e =>
        rw [validateWalk_step_update hluk hfind] at h
        rw [validateWalk_step_update hluk hfind]
        exact ih h
    | some pc =>
      cases hi : pc.isInterface with
      | true =>
        rw [validateWalk_step_interface hluk hi] at h
        rw [validateWalk_step_interface hluk hi]
        exact ih h
      | false =>
        cases hs : env.isSameOrSuperClassOf pc cc with
        | true =>
          rw [validateWalk_step_super hluk hi hs] at h
          rw [validateWalk_step_super hluk hi hs]
          exact ih h
        | false =>
          rw [validateWalk_step_fail hluk hi hs] at h
          simp only [Prod.mk.injEq] at h
          exact absurd h.1 (by simp)

theorem validateWalk_flag_mono {env : VMEnv} {cc : J9Class}
    {nodes : List J9ClassRelationshipNode} {t : J9ClassRelationshipTable} {o : List Bool}
    {p : ClassName} {e : J9ClassRelationship}
    (hfind : findClassRelationship t p = some e) (hflag : e.flags.mustBeInterface = true) :
    ∃ e', findClassRelationship (validateWalk env cc nodes t o).2.1 p = some e' ∧
      e'.flags.mustBeInterface = true := by
  induction nodes generalizing t o e with
  | nil => exact ⟨e, hfind, hflag⟩
  | cons n rest ih =>
    cases hluk : env.hashClassTableAt n.className with
    | none =>
      cases hfind2 : findClassRelationship t n.className with
      | none =>
        rcases h1 : alloc o with ⟨ok1, o1x⟩
        cases ok1 with
        | false =>
          rw [validateWalk_step_oom1 hluk hfind2 h1]
          exact ⟨e, hfind, hflag⟩
        | true =>
          rcases h2 : alloc o1x with ⟨ok2, o2⟩
          cases ok2 with
          | false =>
            rw [validateWalk_step_oom2 hluk hfind2 h1 h2]
            exact ⟨e, hfind, hflag⟩
          | true =>
            rw [validateWalk_step_new hluk hfind2 h1 h2]
            exact ih (find_append_of_some hfind) hflag
      | some x =>
        rw [validateWalk_step_update hluk hfind2]
        by_cases hnp : n.className = p
        · have hf2 : findClassRelationship (updateClassRelationship t n.className
              (fun y => { y with flags := { y.flags with mustBeInterface := true } })) p =
              some { e with flags := { e.flags with mustBeInterface := true } } := by
            rw [find_update (fun y => { y with flags := { y.flags with mustBeInterface := true } })
              (fun y => rfl), if_pos hnp, hfind]
            rfl
          exact ih hf2 rfl
        · refine ih ?_ hflag
          rw [find_update (fun y => { y with flags := { y.flags with mustBeInterface := true } })
            (fun y => rfl), if_neg hnp]
          exact hfind
    | some pc =>
      cases hi : pc.isInterface with
      | true =>
        rw [validateWalk_step_interface hluk hi]
        exact ih hfind hflag
      | false =>
        cases hs : env.isSameOrSuperClassOf pc cc with
        | true =>
          rw [validateWalk_step_super hluk hi hs]
          exact ih hfind hflag
        | false =>
          rw [validateWalk_step_fail hluk hi hs]
          exact ⟨e, hfind, hflag⟩

theorem validateWalk_unloaded_step (env : VMEnv) (cc : J9Class)
    (n : J9ClassRelationshipNode) (rest : List J9ClassRelationshipNode)
    (t : J9ClassRelationshipTable) (hluk : env.hashClassTableAt n.className = none) :
    ∃ t', validateWalk env cc (n :: rest) t [] = validateWalk env cc rest t' [] ∧
      ∃ e', findClassRelationship t' n.className = some e' ∧
        e'.flags.mustBeInterface = true := by
  cases hfind : findClassRelationship t n.className with
  | none =>
    refine ⟨t ++ [⟨n.className, ⟨true, false⟩, []⟩], ?_, ⟨n.className, ⟨true, false⟩, []⟩, ?_, rfl⟩
    · exact validateWalk_step_new hluk hfind rfl rfl
    · rw [find_append_of_none hfind]
      simp [findClassRelationship]
  | some e =>
    refine ⟨updateClassRelationship t n.className
      (fun y => { y with flags := { y.flags with mustBeInterface := true } }),
      validateWalk_step_update hluk hfind, ?_⟩
    refine ⟨{ e with flags := { e.flags with mustBeInterface := true } }, ?_, rfl⟩
    rw [find_update (fun y => { y with flags := { y.flags with mustBeInterface := true } })
      (fun y => rfl), if_pos rfl, hfind]
    rfl

/-! Snippet-processing loop lemmas. -/

theorem processSnippetPairs_append_success {env : VMEnv} {l1 : List (ClassName × ClassName)}
    (l2 : List (ClassName × ClassName)) {table : Option J9ClassRelationshipTable}
    {oracle : List Bool}
    (hpre : (processSnippetPairs env l1 table oracle).reasonCode = .BCV_SUCCESS) :
    processSnippetPairs env (l1 ++ l2) table oracle =
      processSnippetPairs env l2 (processSnippetPairs env l1 table oracle).table
        (processSnippetPairs env l1 table oracle).oracle := by
  induction l1 generalizing table oracle with
  | nil => rfl
  | cons s rest ih =>
    rcases s with ⟨cn, pn⟩
    by_cases hrc : (checkSnippetRelationship env cn pn table oracle).reasonCode = .BCV_SUCCESS
    · have hpre2 : (processSnippetPairs env rest
          (checkSnippetRelationship env cn pn table oracle).table
          (checkSnippetRelationship env cn pn table oracle).oracle).reasonCode = .BCV_SUCCESS := by
        simpa [processSnippetPairs, hrc] using hpre
      simp only [List.cons_append, processSnippetPairs, if_pos hrc]
      exact ih hpre2
    · exfalso
      simp [processSnippetPairs, hrc] at hpre


/-- The one failing step of checkSnippetRelationship: both classes
loaded, parent not an interface, hierarchy predicate false. -/
theorem checkSnippetRelationship_violation {env : VMEnv} {cn pn : ClassName}
    {pc cc : J9Class} (table : Option J9ClassRelationshipTable) (oracle : List Bool)
    (hp : env.hashClassTableAt pn = some pc) (hi : pc.isInterface = false)
    (hc : env.hashClassTableAt cn = some cc)
    (hs : env.isSameOrSuperClassOf pc cc = false) :
    checkSnippetRelationship env cn pn table oracle =
      ⟨.BCV_ERR_INTERNAL_ERROR, some pn, table, oracle⟩ := by
  simp [checkSnippetRelationship, hp, hi, hc, hs]

/-- C3: for a snippet whose parent class is loaded and is an interface,
checkSnippetRelationship records nothing in the relationship table,
consumes no allocation, and succeeds, whatever the hierarchy predicate
says and whether or not the child class is loaded. -/
theorem checkSnippetRelationship_interface_parent (env : VMEnv)
    (childClassName parentClassName : ClassName) (table : Option J9ClassRelationshipTable)
    (oracle : List Bool) (parentClass : J9Class)
    (hluk : env.hashClassTableAt parentClassName = some parentClass)
    (hi : parentClass.isInterface = true) :
    checkSnippetRelationship env childClassName parentClassName table oracle =
      ⟨.BCV_SUCCESS, none, table, oracle⟩ := by
  simp [checkSnippetRelationship, hluk, hi]

/-- C6: processing a snippet list (the common loop of
processClassRelationshipSnippetsNoCachedData and
processClassRelationshipSnippetsUsingCachedData), a snippet whose two
classes are loaded, whose parent is not an interface, and which fails
isSameOrSuperClassOf makes the pass fail immediately with
BCV_ERR_INTERNAL_ERROR naming the parent, and the snippets after the
violation are never evaluated (the run equals the run truncated right
after the violating snippet). -/
theorem processSnippetPairs_fail_fast (env : VMEnv) (l1 l2 : List (ClassName × ClassName))
    (table : Option J9ClassRelationshipTable) (oracle : List Bool) (cn pn : ClassName)
    (pc cc : J9Class)
    (hpre : (processSnippetPairs env l1 table oracle).reasonCode = .BCV_SUCCESS)
    (hp : env.hashClassTableAt pn = some pc) (hi : pc.isInterface = false)
    (hc : env.hashClassTableAt cn = some cc)
    (hs : env.isSameOrSuperClassOf pc cc = false) :
    processSnippetPairs env (l1 ++ (cn, pn) :: l2) table oracle =
      processSnippetPairs env (l1 ++ [(cn, pn)]) table oracle ∧
    (processSnippetPairs env (l1 ++ (cn, pn) :: l2) table oracle).reasonCode =
      .BCV_ERR_INTERNAL_ERROR ∧
    (processSnippetPairs env (l1 ++ (cn, pn) :: l2) table oracle).violatingClass = some pn := by
  have hstep : ∀ tb ob, processSnippetPairs env ((cn, pn) :: l2) tb ob =
      ⟨.BCV_ERR_INTERNAL_ERROR, some pn, tb, ob⟩ := by
    intro tb ob
    simp [processSnippetPairs, checkSnippetRelationship_violation tb ob hp hi hc hs]
  have hstep1 : ∀ tb ob, processSnippetPairs env [(cn, pn)] tb ob =
      ⟨.BCV_ERR_INTERNAL_ERROR, some pn, tb, ob⟩ := by
    intro tb ob
    simp [processSnippetPairs, checkSnippetRelationship_violation tb ob hp hi hc hs]
  rw [processSnippetPairs_append_success ((cn, pn) :: l2) hpre,
    processSnippetPairs_append_success [(cn, pn)] hpre, hstep, hstep1]
  exact ⟨rfl, rfl, rfl⟩

/-! Obligation propagation by validate (C1) and its allocation-failure
behavior (C10). -/

/-- C1 counterexample: the claim fails when the unloaded parent's name
equals the validated child's own name.  Here the entry for A lists A
itself as a pending parent, nothing is loaded under the loader, the walk
does encounter the unloaded parent A and ORs MUST_BE_INTERFACE into A's
entry — which is the walked entry itself — and the successful walk then
removes that entry, so afterwards no entry keyed by the parent's name
exists at all. -/
theorem validate_self_parent_counterexample :
    (VMEnv.mk (fun _ => none) (fun _ _ => true) ⟨"java/lang/Throwable", false⟩).hashClassTableAt
        "A" = none ∧
    (⟨"A"⟩ : J9ClassRelationshipNode) ∈
      (⟨"A", ⟨false, false⟩, [⟨"A"⟩]⟩ : J9ClassRelationship).root ∧
    (j9bcv_validateClassRelationships
        (VMEnv.mk (fun _ => none) (fun _ _ => true) ⟨"java/lang/Throwable", false⟩)
        (some [⟨"A", ⟨false, false⟩, [⟨"A"⟩]⟩]) "A" ⟨"A", false⟩ []).table = some [] ∧
    findClassRelationship [] "A" = none := by
  refine ⟨rfl, List.mem_singleton.mpr rfl, ?_, rfl⟩
  decide

/-- C1 (amended): if validate(child) reaches a parent node whose class
is not loaded, and that parent's name differs from the child's own name,
then after the call the table holds an entry keyed by the parent's name
with MUST_BE_INTERFACE set (OR-ed into the existing entry when there is
one); and any entry with MUST_BE_INTERFACE set makes a later validate of
that name with a non-interface class fail, returning that class itself. -/
theorem validate_propagates_mustBeInterface
    (env : VMEnv) (t : J9ClassRelationshipTable) (childClassName : ClassName)
    (cc : J9Class) (entry : J9ClassRelationship) (pre post : List J9ClassRelationshipNode)
    (n : J9ClassRelationshipNode) (t1 : J9ClassRelationshipTable)
    (hfind : findClassRelationship t childClassName = some entry)
    (h1 : (entry.flags.mustBeInterface && !cc.isInterface) = false)
    (h2 : (entry.flags.parentIsThrowable
      && !(env.isSameOrSuperClassOf env.throwableClass cc)) = false)
    (hroot : entry.root = pre ++ n :: post)
    (hpre : validateWalk env cc pre t [] = (none, t1, []))
    (hluk : env.hashClassTableAt n.className = none)
    (hne : n.className ≠ childClassName) :
    (∃ t2, (j9bcv_validateClassRelationships env (some t) childClassName cc []).table =
        some t2 ∧
      ∃ e', findClassRelationship t2 n.className = some e' ∧
        e'.flags.mustBeInterface = true) ∧
    (∀ (env2 : VMEnv) (t' : J9ClassRelationshipTable) (p : ClassName) (pClass : J9Class)
      (pe : J9ClassRelationship) (o : List Bool),
      findClassRelationship t' p = some pe → pe.flags.mustBeInterface = true →
      pClass.isInterface = false →
      (j9bcv_validateClassRelationships env2 (some t') p pClass o).failedClass = some pClass) := by
  constructor
  · obtain ⟨tstep, hstep, estep, hfindstep, hflagstep⟩ :=
      validateWalk_unloaded_step env cc n post t1 hluk
    have hwalkfull : validateWalk env cc entry.root t [] = validateWalk env cc post tstep [] := by
      rw [hroot, validateWalk_append_none (n :: post) hpre, hstep]
    have hmono := @validateWalk_flag_mono env cc post tstep [] n.className estep
      hfindstep hflagstep
    rcases hw : validateWalk env cc post tstep [] with ⟨r, t3, o3⟩
    rw [hw] at hmono
    obtain ⟨e3, hfind3, hflag3⟩ := hmono
    cases r with
    | some fc =>
      refine ⟨t3, ?_, e3, hfind3, hflag3⟩
      simp [j9bcv_validateClassRelationships, validateWithTable, hfind, h1, h2, hwalkfull, hw]
    | none =>
      refine ⟨removeClassRelationship t3 childClassName, ?_, e3, ?_, hflag3⟩
      · simp [j9bcv_validateClassRelationships, validateWithTable, hfind, h1, h2, hwalkfull, hw]
      · rw [find_remove_ne hne]
        exact hfind3
  · intro env2 t' p pClass pe o hfindp hflagp hni
    have hcond : (pe.flags.mustBeInterface && !pClass.isInterface) = true := by
      rw [hflagp, hni]
      rfl
    simp [j9bcv_validateClassRelationships, validateWithTable, hfindp, hcond]

/-- C10: when validate meets an unloaded parent with no existing entry
and either allocation of the propagated MUST_BE_INTERFACE entry fails
(the className copy or the hashTableAdd), validate returns the child
class itself as the failed class — indistinguishable at this interface
from a relationship violation blaming the child. -/
theorem validate_oom_returns_child
    (env : VMEnv) (t : J9ClassRelationshipTable) (childClassName : ClassName)
    (cc : J9Class) (entry : J9ClassRelationship) (pre post : List J9ClassRelationshipNode)
    (n : J9ClassRelationshipNode) (t1 : J9ClassRelationshipTable) (oracle o1 : List Bool)
    (hfind : findClassRelationship t childClassName = some entry)
    (h1 : (entry.flags.mustBeInterface && !cc.isInterface) = false)
    (h2 : (entry.flags.parentIsThrowable
      && !(env.isSameOrSuperClassOf env.throwableClass cc)) = false)
    (hroot : entry.root = pre ++ n :: post)
    (hpre : validateWalk env cc pre t oracle = (none, t1, o1))
    (hluk : env.hashClassTableAt n.className = none)
    (hnoentry : findClassRelationship t1 n.className = none)
    (hoom : (∃ r, o1 = true :: r) ∨ (∃ r, o1 = false :: true :: r)) :
    (j9bcv_validateClassRelationships env (some t) childClassName cc oracle).failedClass =
      some cc := by
  have hwalk1 : validateWalk env cc entry.root t oracle =
      validateWalk env cc (n :: post) t1 o1 := by
    rw [hroot, validateWalk_append_none (n :: post) hpre]
  rcases hoom with ⟨r, hr⟩ | ⟨r, hr⟩
  · have hfail : validateWalk env cc (n :: post) t1 o1 = (some cc, t1, r) := by
      subst hr
      exact validateWalk_step_oom1 hluk hnoentry rfl
    simp [j9bcv_validateClassRelationships, validateWithTable, hfind, h1, h2, hwalk1, hfail]
  · have hfail : validateWalk env cc (n :: post) t1 o1 = (some cc, t1, r) := by
      subst hr
      exact validateWalk_step_oom2 hluk hnoentry rfl rfl
    simp [j9bcv_validateClassRelationships, validateWithTable, hfind, h1, h2, hwalk1, hfail]

/-! Throwable shortcut (C4). -/

/-- Total number of parent nodes held by the table (pool usage). -/
def tableNodeCount (t : J9ClassRelationshipTable) : Nat :=
  (t.map (fun e => e.root.length)).sum

/-- Node count lifted to the lazily allocated table. -/
def optTableNodeCount : Option J9ClassRelationshipTable → Nat
  | none => 0
  | some t => tableNodeCount t

theorem tableNodeCount_update (f : J9ClassRelationship → J9ClassRelationship)
    {t : J9ClassRelationshipTable} {q : ClassName} (hf : ∀ e, (f e).root = e.root) :
    tableNodeCount (updateClassRelationship t q f) = tableNodeCount t := by
  induction t with
  | nil => rfl
  | cons x rest ih =>
    by_cases hq : x.className = q
    · simp [tableNodeCount, updateClassRelationship, hq, hf]
    · simp only [updateClassRelationship, if_neg hq]
      simp [tableNodeCount] at ih ⊢
      exact ih

theorem tableNodeCount_append (t : J9ClassRelationshipTable) (e : J9ClassRelationship) :
    tableNodeCount (t ++ [e]) = tableNodeCount t + e.root.length := by
  simp [tableNodeCount]

theorem recordWithTable_found {c p : ClassName} {t : J9ClassRelationshipTable}
    {o : List Bool} {entry : J9ClassRelationship}
    (hfind : findClassRelationship t c = some entry) :
    recordWithTable c p t o = recordParentIntoEntry c p entry t o := by
  simp [recordWithTable, hfind]

theorem recordWithTable_oom1 {c p : ClassName} {t : J9ClassRelationshipTable}
    {o o1 : List Bool} (hfind : findClassRelationship t c = none)
    (h1 : alloc o = (false, o1)) :
    recordWithTable c p t o = ⟨false, .BCV_ERR_INSUFFICIENT_MEMORY, some t, o1⟩ := by
  simp [recordWithTable, hfind, h1]

theorem recordWithTable_oom2 {c p : ClassName} {t : J9ClassRelationshipTable}
    {o o1 o2 : List Bool} (hfind : findClassRelationship t c = none)
    (h1 : alloc o = (true, o1)) (h2 : alloc o1 = (false, o2)) :
    recordWithTable c p t o = ⟨false, .BCV_ERR_INSUFFICIENT_MEMORY, some t, o2⟩ := by
  simp [recordWithTable, hfind, h1, h2]

theorem recordWithTable_fresh {c p : ClassName} {t : J9ClassRelationshipTable}
    {o o1 o2 : List Bool} (hfind : findClassRelationship t c = none)
    (h1 : alloc o = (true, o1)) (h2 : alloc o1 = (true, o2)) :
    recordWithTable c p t o = recordParentIntoEntry c p ⟨c, ⟨false, false⟩, []⟩
      (t ++ [⟨c, ⟨false, false⟩, []⟩]) o2 := by
  simp [recordWithTable, hfind, h1, h2]

theorem recordParentIntoEntry_throwable (c : ClassName) (entry : J9ClassRelationship)
    (t : J9ClassRelationshipTable) (o : List Bool) :
    recordParentIntoEntry c J9RELATIONSHIP_JAVA_LANG_THROWABLE_STRING entry t o =
      ⟨true, .BCV_SUCCESS, some (updateClassRelationship t c
        (fun e => { e with flags := { e.flags with parentIsThrowable := true } })), o⟩ := by
  simp [recordParentIntoEntry]

theorem recordWithTable_throwable (c : ClassName) (t : J9ClassRelationshipTable)
    (o : List Bool) :
    optTableNodeCount ((recordWithTable c J9RELATIONSHIP_JAVA_LANG_THROWABLE_STRING t o).table) =
      tableNodeCount t ∧
    ((recordWithTable c J9RELATIONSHIP_JAVA_LANG_THROWABLE_STRING t o).recordResult = true →
      ∃ t' e', (recordWithTable c J9RELATIONSHIP_JAVA_LANG_THROWABLE_STRING t o).table = some t' ∧
        findClassRelationship t' c = some e' ∧ e'.flags.parentIsThrowable = true) := by
  cases hfind : findClassRelationship t c with
  | some entry =>
    rw [recordWithTable_found hfind, recordParentIntoEntry_throwable]
    refine ⟨tableNodeCount_update
      (fun e => { e with flags := { e.flags with parentIsThrowable := true } })
      (fun e => rfl), fun _ => ?_⟩
    refine ⟨_, { entry with flags := { entry.flags with parentIsThrowable := true } }, rfl, ?_, rfl⟩
    rw [find_update (fun e => { e with flags := { e.flags with parentIsThrowable := true } })
      (fun e => rfl), if_pos rfl, hfind]
    rfl
  | none =>
    rcases h1 : alloc o with ⟨ok1, o1⟩
    cases ok1 with
    | false => rw [recordWithTable_oom1 hfind h1]; exact ⟨rfl, by simp⟩
    | true =>
      rcases h2 : alloc o1 with ⟨ok2, o2⟩
      cases ok2 with
      | false => rw [recordWithTable_oom2 hfind h1 h2]; exact ⟨rfl, by simp⟩
      | true =>
        rw [recordWithTable_fresh hfind h1 h2, recordParentIntoEntry_throwable]
        have hfind2 : findClassRelationship (t ++ [⟨c, ⟨false, false⟩, []⟩]) c =
            some ⟨c, ⟨false, false⟩, []⟩ := by
          rw [find_append_of_none hfind]
          simp [findClassRelationship]
        constructor
        · show tableNodeCount (updateClassRelationship (t ++ [⟨c, ⟨false, false⟩, []⟩]) c
            (fun e => { e with flags := { e.flags with parentIsThrowable := true } })) =
            tableNodeCount t
          rw [tableNodeCount_update
            (fun e => { e with flags := { e.flags with parentIsThrowable := true } })
            (fun e => rfl), tableNodeCount_append]
          rfl
        · intro _
          refine ⟨_, ⟨c, ⟨false, true⟩, []⟩, rfl, ?_, rfl⟩
          rw [find_update (fun e => { e with flags := { e.flags with parentIsThrowable := true } })
            (fun e => rfl), if_pos rfl, hfind2]
          rfl

/-- C4 counterexample: the claim's final clause fails when the entry
also carries MUST_BE_INTERFACE and the child is not an interface: the
MUST_BE_INTERFACE check fails first and validate returns the child, not
Throwable, even though the entry has PARENT_IS_THROWABLE set and the
Throwable relationship does not hold. -/
theorem validate_throwable_shadowed_counterexample :
    ((VMEnv.mk (fun _ => none) (fun _ _ => false) ⟨"java/lang/Throwable", false⟩).throwableClass
      ≠ (⟨"A", false⟩ : J9Class)) ∧
    (⟨"A", ⟨true, true⟩, []⟩ : J9ClassRelationship).flags.parentIsThrowable = true ∧
    (VMEnv.mk (fun _ => none) (fun _ _ => false)
      ⟨"java/lang/Throwable", false⟩).isSameOrSuperClassOf
        ⟨"java/lang/Throwable", false⟩ ⟨"A", false⟩ = false ∧
    (j9bcv_validateClassRelationships
      (VMEnv.mk (fun _ => none) (fun _ _ => false) ⟨"java/lang/Throwable", false⟩)
      (some [⟨"A", ⟨true, true⟩, []⟩]) "A" ⟨"A", false⟩ []).failedClass =
        some ⟨"A", false⟩ := by
  refine ⟨by decide, rfl, rfl, ?_⟩
  decide

/-- C4 (amended): recording java/lang/Throwable as a parent sets
PARENT_IS_THROWABLE on the child's entry and allocates no ParentNode;
no reachable table ever holds a node named java/lang/Throwable; and
validating a child whose entry has PARENT_IS_THROWABLE set — provided
the MUST_BE_INTERFACE check does not fail first — checks
isSameOrSuperClassOf(Throwable, child) and on failure returns Throwable
as the offending class. -/
theorem throwable_shortcut
    (c : ClassName) (table : Option J9ClassRelationshipTable) (o : List Bool) :
    (optTableNodeCount ((j9bcv_recordClassRelationship c
        J9RELATIONSHIP_JAVA_LANG_THROWABLE_STRING table o).table) = optTableNodeCount table ∧
      ((j9bcv_recordClassRelationship c J9RELATIONSHIP_JAVA_LANG_THROWABLE_STRING
          table o).recordResult = true →
        ∃ t' e', (j9bcv_recordClassRelationship c J9RELATIONSHIP_JAVA_LANG_THROWABLE_STRING
            table o).table = some t' ∧
          findClassRelationship t' c = some e' ∧ e'.flags.parentIsThrowable = true)) ∧
    (∀ table2, Reachable table2 → ∀ t2, table2 = some t2 → ∀ e ∈ t2, ∀ nd ∈ e.root,
      nd.className ≠ J9RELATIONSHIP_JAVA_LANG_THROWABLE_STRING) ∧
    (∀ (env : VMEnv) (t : J9ClassRelationshipTable) (cn : ClassName) (cc : J9Class)
      (o2 : List Bool) (entry : J9ClassRelationship),
      findClassRelationship t cn = some entry →
      (entry.flags.mustBeInterface && !cc.isInterface) = false →
      entry.flags.parentIsThrowable = true →
      env.isSameOrSuperClassOf env.throwableClass cc = false →
      (j9bcv_validateClassRelationships env (some t) cn cc o2).failedClass =
        some env.throwableClass) := by
  refine ⟨?_, ?_, ?_⟩
  · cases table with
    | some t => exact recordWithTable_throwable c t o
    | none =>
      unfold j9bcv_recordClassRelationship
      rcases h1 : alloc o with ⟨ok1, o1⟩
      cases ok1 with
      | false => simp [h1, optTableNodeCount]
      | true =>
        rcases h2 : alloc o1 with ⟨ok2, o2⟩
        cases ok2 with
        | false => simp [h1, h2, optTableNodeCount, tableNodeCount]
        | true =>
          simp only [h1, h2]
          simp only [Bool.not_true, Bool.false_eq_true, if_false]
          exact recordWithTable_throwable c [] o2
  · intro table2 hreach t2 ht2 e he nd hnd
    have hwf := Reachable_WF hreach
    rw [ht2] at hwf
    exact (hwf.2 e he).2.2 nd hnd
  · intro env t cn cc o2 entry hfind hg1 hthr hsup
    have hcond : (entry.flags.parentIsThrowable
        && !(env.isSameOrSuperClassOf env.throwableClass cc)) = true := by
      rw [hthr, hsup]
      rfl
    simp [j9bcv_validateClassRelationships, validateWithTable, hfind, hg1, hcond]

/-! Entry-iff-obligation invariant (C5). -/

/-- C5 counterexample: a record whose node allocation fails
(pool_newElement returns NULL after the entry was already added) leaves
an entry with no parent node and no flag in the table — an entry with no
pending obligation, violating the claimed iff at a point between
operations.  The oracle makes the fifth allocation (pool_newElement)
fail: hashTableNew, pool_new, entry className and hashTableAdd all
succeed first. -/
theorem record_oom_partial_entry_counterexample :
    (j9bcv_recordClassRelationship "A" "Bb" none [false, false, false, false, true]).table =
      some [⟨"A", ⟨false, false⟩, []⟩] ∧
    (j9bcv_recordClassRelationship "A" "Bb" none [false, false, false, false, true]).reasonCode =
      .BCV_ERR_INSUFFICIENT_MEMORY ∧
    ¬ hasObligation ⟨"A", ⟨false, false⟩, []⟩ := by
  refine ⟨by decide, by decide, ?_⟩
  simp [hasObligation]

/-- C5 (amended): in the absence of allocation failures during record
(validate may still fail any way), every entry of the table has a
pending obligation — a parent node or one of the two flags; and whenever
validate returns success for a child, the table afterwards holds no
entry for that child's name. -/
theorem entry_iff_obligation
    (table : Option J9ClassRelationshipTable) :
    (ReachableOk table → ∀ t, table = some t → ∀ e ∈ t, hasObligation e) ∧
    (∀ (env : VMEnv) (c : ClassName) (cc : J9Class) (o : List Bool),
      OptTableWF table →
      (j9bcv_validateClassRelationships env table c cc o).failedClass = none →
      ∀ t', (j9bcv_validateClassRelationships env table c cc o).table = some t' →
        findClassRelationship t' c = none) := by
  constructor
  · intro hreach t ht e he
    have := ReachableOk_Obl hreach
    rw [ht] at this
    exact this e he
  · intro env c cc o hwf hnone t' ht'
    cases table with
    | none => exact Option.noConfusion ht'
    | some t =>
      rcases hv : validateWithTable env c cc t o with ⟨r0, t0, o0⟩
      have htab : (j9bcv_validateClassRelationships env (some t) c cc o).table = some t0 := by
        simp [j9bcv_validateClassRelationships, hv]
      have hfc : (j9bcv_validateClassRelationships env (some t) c cc o).failedClass = r0 := by
        simp [j9bcv_validateClassRelationships, hv]
      rw [htab] at ht'
      rw [hfc] at hnone
      subst hnone
      obtain rfl : t0 = t' := Option.some.inj ht'
      cases hfind : findClassRelationship t c with
      | none =>
        have hval : validateWithTable env c cc t o = (none, t, o) := by
          simp [validateWithTable, hfind]
        rw [hval] at hv
        simp only [Prod.mk.injEq] at hv
        rw [← hv.2.1]
        exact hfind
      | some entry =>
        by_cases hg1 : (entry.flags.mustBeInterface && !cc.isInterface) = true
        · have hval : validateWithTable env c cc t o = (some cc, t, o) := by
            simp [validateWithTable, hfind, hg1]
          rw [hval] at hv
          simp at hv
        · by_cases hg2 : (entry.flags.parentIsThrowable
              && !(env.isSameOrSuperClassOf env.throwableClass cc)) = true
          · have hval : validateWithTable env c cc t o = (some env.throwableClass, t, o) := by
              simp [validateWithTable, hfind, hg1, hg2]
            rw [hval] at hv
            simp at hv
          · have hwWF := @validateWalk_WF env cc entry.root t o hwf
            rcases hw : validateWalk env cc entry.root t o with ⟨r1, t4, o4⟩
            rw [hw] at hwWF
            cases r1 with
            | some fc =>
              have hval : validateWithTable env c cc t o = (some fc, t4, o4) := by
                simp [validateWithTable, hfind, hg1, hg2, hw]
              rw [hval] at hv
              simp at hv
            | none =>
              have hval : validateWithTable env c cc t o =
                  (none, removeClassRelationship t4 c, o4) := by
                simp [validateWithTable, hfind, hg1, hg2, hw]
              rw [hval] at hv
              simp only [Prod.mk.injEq] at hv
              rw [← hv.2.1]
              exact find_remove_self hwWF.1

/-! Ordered, duplicate-free parents sequence (C7). -/

/-- C7: every reachable table keeps each entry's parents sequence
non-decreasing by class-name length and free of duplicate names; and
recording a parent already present in the child's sequence succeeds
while leaving the table untouched and consuming no allocation. -/
theorem parents_ordered_nodup_and_duplicate_noop :
    (∀ table, Reachable table → ∀ t, table = some t → ∀ e ∈ t,
      rootOrdered e.root ∧ rootNamesNodup e.root) ∧
    (∀ (t : J9ClassRelationshipTable) (childClassName parentClassName : ClassName)
      (entry : J9ClassRelationship) (o : List Bool),
      TableWF t → findClassRelationship t childClassName = some entry →
      parentClassName ∈ entry.root.map (fun n => n.className) →
      j9bcv_recordClassRelationship childClassName parentClassName (some t) o =
        ⟨true, .BCV_SUCCESS, some t, o⟩) := by
  constructor
  · intro table hreach t ht e he
    have hwf := Reachable_WF hreach
    rw [ht] at hwf
    exact ⟨(hwf.2 e he).1, (hwf.2 e he).2.1⟩
  · intro t childClassName parentClassName entry o hwf hfind hmem
    have hroot := hwf.2 entry (find_some_mem hfind).1
    have hpt : parentClassName ≠ J9RELATIONSHIP_JAVA_LANG_THROWABLE_STRING := by
      obtain ⟨n, hn, rfl⟩ := List.mem_map.mp hmem
      exact hroot.2.2 n hn
    have hins : insertParent entry.root parentClassName = none :=
      insertParent_of_mem hroot.1 hmem
    show recordWithTable childClassName parentClassName t o = _
    rw [recordWithTable_found hfind]
    simp [recordParentIntoEntry, hpt, hins]

/-! Blob round-trip (C2). -/

theorem lookupUTF8_append_of_some {l ext : List (Nat × ClassName)} {target : Int}
    {nm : ClassName} (h : lookupUTF8 l target = some nm) :
    lookupUTF8 (l ++ ext) target = some nm := by
  induction l with
  | nil => simp [lookupUTF8] at h
  | cons x rest ih =>
    rcases x with ⟨off, name⟩
    by_cases hx : (off : Int) = target
    · simp only [lookupUTF8, if_pos hx] at h
      simp only [List.cons_append, lookupUTF8, if_pos hx]
      exact h
    · simp only [lookupUTF8, if_neg hx] at h
      simp only [List.cons_append, lookupUTF8, if_neg hx]
      exact ih h

theorem lookupUTF8_append_fresh {l : List (Nat × ClassName)} {fresh : Nat} {nm : ClassName}
    (h : ∀ x ∈ l, x.1 < fresh) :
    lookupUTF8 (l ++ [(fresh, nm)]) (fresh : Int) = some nm := by
  induction l with
  | nil => simp [lookupUTF8]
  | cons x rest ih =>
    rcases x with ⟨off, name⟩
    have hlt : off < fresh := h (off, name) (List.mem_cons_self _ _)
    have hne : (off : Int) ≠ (fresh : Int) := by
      exact_mod_cast Nat.ne_of_lt hlt
    simp only [List.cons_append, lookupUTF8, if_neg hne]
    exact ih (fun y hy => h y (List.mem_cons_of_mem _ hy))

theorem findArrayOffset_mem {l : List (Nat × Nat)} {idx off : Nat}
    (h : findArrayOffset l idx = some off) : (idx, off) ∈ l := by
  induction l with
  | nil => simp [findArrayOffset] at h
  | cons x rest ih =>
    rcases x with ⟨i, o⟩
    by_cases hx : i = idx
    · simp only [findArrayOffset, if_pos hx] at h
      rw [hx, Option.some.inj h]
      exact List.mem_cons_self _ _
    · simp only [findArrayOffset, if_neg hx] at h
      exact List.mem_cons_of_mem _ (ih h)

theorem findHashTableOffset_mem {l : List (ClassName × Nat)} {nm : ClassName} {off : Nat}
    (h : findHashTableOffset l nm = some off) : (nm, off) ∈ l := by
  induction l with
  | nil => simp [findHashTableOffset] at h
  | cons x rest ih =>
    rcases x with ⟨n, o⟩
    by_cases hx : n = nm
    · simp only [findHashTableOffset, if_pos hx] at h
      rw [hx, Option.some.inj h]
      exact List.mem_cons_self _ _
    · simp only [findHashTableOffset, if_neg hx] at h
      exact List.mem_cons_of_mem _ (ih h)

/-- Serializer-state invariant: every stored UTF8 sits below the next
free offset, and both dedup structures map only to offsets whose lookup
returns the very name they stand for. -/
def SerOK (vd : J9BytecodeVerificationData) (st : SerializeState) : Prop :=
  (∀ x ∈ st.utf8s, x.1 < st.nextUTF8Offset) ∧
  (∀ x ∈ st.classNamesArray, lookupUTF8 st.utf8s (x.2 : Int) = some (vd.classNameList x.1)) ∧
  (∀ x ∈ st.classNamesHashTable, lookupUTF8 st.utf8s (x.2 : Int) = some x.1)

theorem SerOK_write (vd : J9BytecodeVerificationData) {st : SerializeState}
    (hok : SerOK vd st) (nm : ClassName) :
    lookupUTF8 (st.utf8s ++ [(st.nextUTF8Offset, nm)]) (st.nextUTF8Offset : Int) = some nm :=
  lookupUTF8_append_fresh hok.1

theorem resolveUTF8Address_spec (config : SnippetConfig) (vd : J9BytecodeVerificationData)
    {st : SerializeState} {idx off : Nat} {st' : SerializeState} (hok : SerOK vd st)
    (h : resolveUTF8Address config vd st idx = (off, st')) :
    lookupUTF8 st'.utf8s (off : Int) = some (vd.classNameList idx) ∧
    SerOK vd st' ∧ ∃ ext, st'.utf8s = st.utf8s ++ ext := by
  have hfreshCase : ∀ (updArr : List (Nat × Nat)) (updHash : List (ClassName × Nat)),
      (∀ x ∈ updArr, x ∈ st.classNamesArray ∨ x = (idx, st.nextUTF8Offset)) →
      (∀ x ∈ updHash, x ∈ st.classNamesHashTable ∨ x = (vd.classNameList idx, st.nextUTF8Offset)) →
      lookupUTF8 (st.utf8s ++ [(st.nextUTF8Offset, vd.classNameList idx)])
          ((st.nextUTF8Offset : Nat) : Int) = some (vd.classNameList idx) ∧
      SerOK vd (SerializeState.mk
        (st.nextUTF8Offset + utf8AddressSize (vd.classNameList idx).length)
        (st.utf8s ++ [(st.nextUTF8Offset, vd.classNameList idx)]) updArr updHash) ∧
      ∃ ext, st.utf8s ++ [(st.nextUTF8Offset, vd.classNameList idx)] = st.utf8s ++ ext := by
    intro updArr updHash harr hhash
    have hwrite := SerOK_write vd hok (vd.classNameList idx)
    refine ⟨hwrite, ⟨?_, ?_, ?_⟩, [(st.nextUTF8Offset, vd.classNameList idx)], rfl⟩
    · intro x hx
      dsimp only at hx ⊢
      rcases List.mem_append.mp hx with hm | hm
      · have := hok.1 x hm
        have hpos : 0 < utf8AddressSize (vd.classNameList idx).length := by
          simp [utf8AddressSize]
        omega
      · rw [List.mem_singleton.mp hm]
        have hpos : 0 < utf8AddressSize (vd.classNameList idx).length := by
          simp [utf8AddressSize]
        omega
    · intro x hx
      dsimp only at hx ⊢
      rcases harr x hx with hm | rfl
      · exact lookupUTF8_append_of_some (hok.2.1 x hm)
      · exact hwrite
    · intro x hx
      dsimp only at hx ⊢
      rcases hhash x hx with hm | rfl
      · exact lookupUTF8_append_of_some (hok.2.2 x hm)
      · exact hwrite
  cases config with
  | J9RELATIONSHIP_SNIPPET_SINGLE =>
    simp only [resolveUTF8Address, getUTF8Address] at h
    obtain ⟨rfl, rfl⟩ : st.nextUTF8Offset = off ∧ _ = st' := Prod.mk.injEq .. ▸ h
    exact hfreshCase st.classNamesArray st.classNamesHashTable
      (fun x hx => Or.inl hx) (fun x hx => Or.inl hx)
  | J9RELATIONSHIP_SNIPPET_USE_ARRAY =>
    simp only [resolveUTF8Address, getUTF8AddressFromArray] at h
    cases hfa : findArrayOffset st.classNamesArray idx with
    | some off0 =>
      rw [hfa] at h
      obtain ⟨rfl, rfl⟩ : off0 = off ∧ st = st' := Prod.mk.injEq .. ▸ h
      exact ⟨hok.2.1 (idx, off0) (findArrayOffset_mem hfa), hok, [], by simp⟩
    | none =>
      rw [hfa] at h
      obtain ⟨rfl, rfl⟩ : st.nextUTF8Offset = off ∧ _ = st' := Prod.mk.injEq .. ▸ h
      refine hfreshCase (st.classNamesArray ++ [(idx, st.nextUTF8Offset)])
        st.classNamesHashTable ?_ (fun x hx => Or.inl hx)
      intro x hx
      rcases List.mem_append.mp hx with hm | hm
      · exact Or.inl hm
      · exact Or.inr (List.mem_singleton.mp hm)
  | J9RELATIONSHIP_SNIPPET_USE_HASHTABLE =>
    simp only [resolveUTF8Address, getUTF8AddressFromHashTable] at h
    cases hfh : findHashTableOffset st.classNamesHashTable (vd.classNameList idx) with
    | some off0 =>
      rw [hfh] at h
      obtain ⟨rfl, rfl⟩ : off0 = off ∧ st = st' := Prod.mk.injEq .. ▸ h
      exact ⟨hok.2.2 (vd.classNameList idx, off0) (findHashTableOffset_mem hfh), hok, [], by simp⟩
    | none =>
      rw [hfh] at h
      obtain ⟨rfl, rfl⟩ : st.nextUTF8Offset = off ∧ _ = st' := Prod.mk.injEq .. ▸ h
      refine hfreshCase st.classNamesArray
        (st.classNamesHashTable ++ [(vd.classNameList idx, st.nextUTF8Offset)])
        (fun x hx => Or.inl hx) ?_
      intro x hx
      rcases List.mem_append.mp hx with hm | hm
      · exact Or.inl hm
      · exact Or.inr (List.mem_singleton.mp hm)

theorem decodeSnippetsLoop_mono {utf8s ext : List (Nat × ClassName)} :
    ∀ (srps : List Int) (addr : Nat) (ps : List (ClassName × ClassName)),
    decodeSnippetsLoop utf8s srps addr = some ps →
    decodeSnippetsLoop (utf8s ++ ext) srps addr = some ps
  | [], _, _, h => h
  | [x], _, _, h => by simp [decodeSnippetsLoop] at h
  | a :: b :: rest, addr, ps, h => by
    unfold decodeSnippetsLoop at h ⊢
    cases hga : SRP_GET utf8s addr a with
    | none => simp [hga] at h
    | some cn =>
      cases hgb : SRP_GET utf8s (addr + srpSize) b with
      | none => simp [hga, hgb] at h
      | some pn =>
        simp only [hga, hgb] at h
        have hga2 : SRP_GET (utf8s ++ ext) addr a = some cn :=
          lookupUTF8_append_of_some hga
        have hgb2 : SRP_GET (utf8s ++ ext) (addr + srpSize) b = some pn :=
          lookupUTF8_append_of_some hgb
        simp only [hga2, hgb2]
        obtain ⟨ps', hps', hcons⟩ := Option.map_eq_some'.mp h
        rw [decodeSnippetsLoop_mono rest (addr + snippetSize) ps' hps']
        rw [← hcons]
        rfl

theorem storeSnippetsLoop_spec (config : SnippetConfig) (vd : J9BytecodeVerificationData)
    (snips : List J9ClassRelationshipSnippet) :
    ∀ (srpAddr : Nat) (st : SerializeState) (srps : List Int) (st' : SerializeState),
    SerOK vd st → storeSnippetsLoop config vd snips srpAddr st = (srps, st') →
    decodeSnippetsLoop st'.utf8s srps srpAddr = some (snips.map (snippetNames vd)) ∧
    SerOK vd st' ∧ ∃ ext, st'.utf8s = st.utf8s ++ ext := by
  induction snips with
  | nil =>
    intro srpAddr st srps st' hok h
    simp only [storeSnippetsLoop, Prod.mk.injEq] at h
    rw [← h.1, ← h.2]
    exact ⟨rfl, hok, [], by simp⟩
  | cons s rest ih =>
    intro srpAddr st srps st' hok h
    rcases r1 : resolveUTF8Address config vd st s.childClassNameIndex with ⟨childOff, st1⟩
    rcases r2 : resolveUTF8Address config vd st1 s.parentClassNameIndex with ⟨parentOff, st2⟩
    rcases r3 : storeSnippetsLoop config vd rest (srpAddr + snippetSize) st2 with ⟨srpsR, stF⟩
    simp only [storeSnippetsLoop, r1, r2, r3, Prod.mk.injEq] at h
    obtain ⟨hsrps, hst⟩ := h
    subst hst
    obtain ⟨hlk1, hok1, e1, hext1⟩ := resolveUTF8Address_spec config vd hok r1
    obtain ⟨hlk2, hok2, e2, hext2⟩ := resolveUTF8Address_spec config vd hok1 r2
    obtain ⟨hdec, hokF, e3, hext3⟩ := ih (srpAddr + snippetSize) st2 srpsR stF hok2 r3
    refine ⟨?_, hokF, e1 ++ (e2 ++ e3), by rw [hext3, hext2, hext1]; simp⟩
    rw [← hsrps]
    have hchild : SRP_GET stF.utf8s srpAddr ((childOff : Int) - (srpAddr : Int)) =
        some (vd.classNameList s.childClassNameIndex) := by
      unfold SRP_GET
      have harith : (srpAddr : Int) + ((childOff : Int) - (srpAddr : Int)) = (childOff : Int) := by
        ring
      rw [harith, hext3, hext2]
      exact lookupUTF8_append_of_some (lookupUTF8_append_of_some hlk1)
    have hparent : SRP_GET stF.utf8s (srpAddr + srpSize)
        ((parentOff : Int) - ((srpAddr + srpSize : Nat) : Int)) =
        some (vd.classNameList s.parentClassNameIndex) := by
      unfold SRP_GET
      have harith : ((srpAddr + srpSize : Nat) : Int) +
          ((parentOff : Int) - ((srpAddr + srpSize : Nat) : Int)) = (parentOff : Int) := by
        ring
      rw [harith, hext3]
      exact lookupUTF8_append_of_some hlk2
    push_cast at hparent
    unfold decodeSnippetsLoop
    simp [hchild, hparent, hdec, snippetNames]

/-- C2: deserializing the data buffer produced by storeToDataBuffer for
a non-empty snippet list yields exactly the (childName, parentName)
pairs of the set, in order (hence the same multiset), both with the
strategy the snippet count selects and with each of the three
strategies, so the choice is unobservable in the decoded pairs. -/
theorem snippet_blob_round_trip (threshold : Nat) (vd : J9BytecodeVerificationData)
    (snippets : List J9ClassRelationshipSnippet) (hne : snippets ≠ []) :
    decodeDataBuffer (serializeSnippets threshold vd snippets) =
      some (snippets.map (snippetNames vd)) ∧
    ∀ config, decodeDataBuffer (storeToDataBuffer config vd snippets) =
      some (snippets.map (snippetNames vd)) := by
  have hall : ∀ config, decodeDataBuffer (storeToDataBuffer config vd snippets) =
      some (snippets.map (snippetNames vd)) := by
    intro config
    have hok0 : SerOK vd ⟨headerSize + snippets.length * snippetSize, [], [], []⟩ :=
      ⟨by simp, by simp, by simp⟩
    rcases hloop : storeSnippetsLoop config vd snippets headerSize
        ⟨headerSize + snippets.length * snippetSize, [], [], []⟩ with ⟨srps, stF⟩
    obtain ⟨hdec, _, _⟩ := storeSnippetsLoop_spec config vd snippets headerSize _ srps stF
      hok0 hloop
    simp only [decodeDataBuffer, storeToDataBuffer, hloop]
    exact hdec
  exact ⟨hall (chooseSnippetConfig threshold snippets.length), hall⟩

/-! Snippet recording (C8). -/

theorem findSnippet_some_mem {t : List J9ClassRelationshipSnippet}
    {s x : J9ClassRelationshipSnippet} (h : findSnippet t s = some x) : s ∈ t := by
  induction t with
  | nil => simp [findSnippet] at h
  | cons y rest ih =>
    by_cases hy : y = s
    · rw [hy]
      exact List.mem_cons_self _ _
    · simp only [findSnippet, if_neg hy] at h
      exact List.mem_cons_of_mem _ (ih h)

theorem findSnippet_none_not_mem {t : List J9ClassRelationshipSnippet}
    {s : J9ClassRelationshipSnippet} (h : findSnippet t s = none) : s ∉ t := by
  induction t with
  | nil => simp
  | cons y rest ih =>
    by_cases hy : y = s
    · simp [findSnippet, hy] at h
    · simp only [findSnippet, if_neg hy] at h
      intro hm
      rcases List.mem_cons.mp hm with rfl | hm2
      · exact hy rfl
      · exact ih h hm2

theorem mem_findSnippet_some {t : List J9ClassRelationshipSnippet}
    {s : J9ClassRelationshipSnippet} (h : s ∈ t) : findSnippet t s = some s := by
  induction t with
  | nil => simp at h
  | cons y rest ih =>
    by_cases hy : y = s
    · simp [findSnippet, hy]
    · simp only [findSnippet, if_neg hy]
      rcases List.mem_cons.mp h with rfl | hm
      · exact absurd rfl hy
      · exact ih hm

/-- One snippet record with every allocation succeeding: succeeds,
reports whether the pair was new, and adds it exactly when absent. -/
theorem recordSnippet_ok (tbl : Option (List J9ClassRelationshipSnippet))
    (c p : Nat) :
    (j9bcv_recordClassRelationshipSnippet tbl c p []).reasonCode = .BCV_SUCCESS ∧
    ((j9bcv_recordClassRelationshipSnippet tbl c p []).recordResult = true ↔
      (⟨c, p⟩ : J9ClassRelationshipSnippet) ∉ tbl.getD []) ∧
    (j9bcv_recordClassRelationshipSnippet tbl c p []).snippetTable =
      some (if (⟨c, p⟩ : J9ClassRelationshipSnippet) ∈ tbl.getD [] then tbl.getD []
        else tbl.getD [] ++ [⟨c, p⟩]) := by
  have hwt : ∀ t : List J9ClassRelationshipSnippet,
      (recordSnippetWithTable t c p []).reasonCode = .BCV_SUCCESS ∧
      ((recordSnippetWithTable t c p []).recordResult = true ↔
        (⟨c, p⟩ : J9ClassRelationshipSnippet) ∉ t) ∧
      (recordSnippetWithTable t c p []).snippetTable =
        some (if (⟨c, p⟩ : J9ClassRelationshipSnippet) ∈ t then t else t ++ [⟨c, p⟩]) := by
    intro t
    cases hf : findSnippet t ⟨c, p⟩ with
    | some x =>
      have hm := findSnippet_some_mem hf
      refine ⟨by simp [recordSnippetWithTable, hf], ?_, by simp [recordSnippetWithTable, hf, hm]⟩
      simp [recordSnippetWithTable, hf, hm]
    | none =>
      have hm := findSnippet_none_not_mem hf
      refine ⟨by simp [recordSnippetWithTable, hf, alloc], ?_,
        by simp [recordSnippetWithTable, hf, alloc, hm]⟩
      simp [recordSnippetWithTable, hf, alloc, hm]
  cases tbl with
  | some t => exact hwt t
  | none =>
    have h0 := hwt []
    simp only [Option.getD]
    exact h0

/-- Folding a sequence of snippet records (all allocations succeeding)
over the lazily created table, as the verifier does during one pass. -/
def recordSnippetSeq : List J9ClassRelationshipSnippet →
    Option (List J9ClassRelationshipSnippet) → Option (List J9ClassRelationshipSnippet)
  | [], tbl => tbl
  | s :: rest, tbl =>
    recordSnippetSeq rest
      (j9bcv_recordClassRelationshipSnippet tbl s.childClassNameIndex
        s.parentClassNameIndex []).snippetTable

theorem recordSnippetSeq_inv (seq : List J9ClassRelationshipSnippet) :
    ∀ t : List J9ClassRelationshipSnippet, t.Nodup →
    ∃ u, recordSnippetSeq seq (some t) = some u ∧ u.Nodup ∧
      (∀ x, x ∈ u ↔ x ∈ t ∨ x ∈ seq) := by
  induction seq with
  | nil =>
    intro t hnd
    exact ⟨t, rfl, hnd, by simp⟩
  | cons s rest ih =>
    intro t hnd
    have hstep := recordSnippet_ok (some t) s.childClassNameIndex s.parentClassNameIndex
    have hs : (⟨s.childClassNameIndex, s.parentClassNameIndex⟩ :
        J9ClassRelationshipSnippet) = s := rfl
    rw [hs] at hstep
    simp only [Option.getD_some] at hstep
    by_cases hm : s ∈ t
    · 
      have htab : (j9bcv_recordClassRelationshipSnippet (some t) s.childClassNameIndex
          s.parentClassNameIndex []).snippetTable = some t := by
        rw [hstep.2.2, if_pos hm]
      obtain ⟨u, hu, hund, humem⟩ := ih t hnd
      refine ⟨u, ?_, hund, ?_⟩
      · simp only [recordSnippetSeq, htab]
        exact hu
      · intro x
        rw [humem x]
        constructor
        · rintro (h1 | h1)
          · exact Or.inl h1
          · exact Or.inr (List.mem_cons_of_mem _ h1)
        · rintro (h1 | h1)
          · exact Or.inl h1
          · rcases List.mem_cons.mp h1 with rfl | h2
            · exact Or.inl hm
            · exact Or.inr h2
    · have htab : (j9bcv_recordClassRelationshipSnippet (some t) s.childClassNameIndex
          s.parentClassNameIndex []).snippetTable = some (t ++ [s]) := by
        rw [hstep.2.2, if_neg hm]
      have hnd2 : (t ++ [s]).Nodup := by
        refine List.Nodup.append hnd (by simp) ?_
        intro a ha hb
        rw [List.mem_singleton.mp hb] at ha
        exact hm ha
      obtain ⟨u, hu, hund, humem⟩ := ih (t ++ [s]) hnd2
      refine ⟨u, ?_, hund, ?_⟩
      · simp only [recordSnippetSeq, htab]
        exact hu
      · intro x
        rw [humem x]
        constructor
        · rintro (h1 | h1)
          · rcases List.mem_append.mp h1 with h2 | h2
            · exact Or.inl h2
            · exact Or.inr (List.mem_cons.mpr (Or.inl (List.mem_singleton.mp h2)))
          · exact Or.inr (List.mem_cons_of_mem _ h1)
        · rintro (h1 | h1)
          · exact Or.inl (List.mem_append.mpr (Or.inl h1))
          · rcases List.mem_cons.mp h1 with rfl | h2
            · exact Or.inl (List.mem_append.mpr (Or.inr (by simp)))
            · exact Or.inr h2

/-- C8: recordSnippet adds the pair only if absent (with lazy table
creation), returns TRUE exactly when newly added, never fails except
with BCV_ERR_INSUFFICIENT_MEMORY on an allocation failure, and after any
sequence of (allocation-failure-free) record calls the table size is the
number of distinct recorded pairs. -/
theorem recordSnippet_dedup :
    (∀ (tbl : Option (List J9ClassRelationshipSnippet)) (c p : Nat) (o : List Bool),
      (j9bcv_recordClassRelationshipSnippet tbl c p o).reasonCode = .BCV_SUCCESS ∨
      (j9bcv_recordClassRelationshipSnippet tbl c p o).reasonCode =
        .BCV_ERR_INSUFFICIENT_MEMORY) ∧
    (∀ (tbl : Option (List J9ClassRelationshipSnippet)) (c p : Nat),
      (j9bcv_recordClassRelationshipSnippet tbl c p []).reasonCode = .BCV_SUCCESS ∧
      ((j9bcv_recordClassRelationshipSnippet tbl c p []).recordResult = true ↔
        (⟨c, p⟩ : J9ClassRelationshipSnippet) ∉ tbl.getD [])) ∧
    (∀ seq : List J9ClassRelationshipSnippet,
      ((recordSnippetSeq seq none).getD []).Nodup ∧
      (∀ x, x ∈ (recordSnippetSeq seq none).getD [] ↔ x ∈ seq) ∧
      ((recordSnippetSeq seq none).getD []).length = seq.toFinset.card) := by
  refine ⟨?_, ?_, ?_⟩
  · intro tbl c p o
    have hwt : ∀ (t : List J9ClassRelationshipSnippet) (o2 : List Bool),
        (recordSnippetWithTable t c p o2).reasonCode = .BCV_SUCCESS ∨
        (recordSnippetWithTable t c p o2).reasonCode = .BCV_ERR_INSUFFICIENT_MEMORY := by
      intro t o2
      cases hf : findSnippet t ⟨c, p⟩ with
      | some x => simp [recordSnippetWithTable, hf]
      | none =>
        rcases h1 : alloc o2 with ⟨ok, o3⟩
        cases ok with
        | false => simp [recordSnippetWithTable, hf, h1]
        | true => simp [recordSnippetWithTable, hf, h1]
    cases tbl with
    | some t => exact hwt t o
    | none =>
      rcases h1 : alloc o with ⟨ok, o2⟩
      cases ok with
      | false => simp [j9bcv_recordClassRelationshipSnippet, h1]
      | true =>
        simp only [j9bcv_recordClassRelationshipSnippet, h1]
        simp only [Bool.not_true, Bool.false_eq_true, if_false]
        exact hwt [] o2
  · intro tbl c p
    exact ⟨(recordSnippet_ok tbl c p).1, (recordSnippet_ok tbl c p).2.1⟩
  · intro seq
    cases seq with
    | nil =>
      refine ⟨List.nodup_nil, by simp [recordSnippetSeq], by simp [recordSnippetSeq]⟩
    | cons s rest =>
      have hstep := recordSnippet_ok none s.childClassNameIndex s.parentClassNameIndex
      have htab : (j9bcv_recordClassRelationshipSnippet none s.childClassNameIndex
          s.parentClassNameIndex []).snippetTable = some [s] := by
        rw [hstep.2.2]
        simp
      obtain ⟨u, hu, hund, humem⟩ := recordSnippetSeq_inv rest [s] (by simp)
      have hmem2 : ∀ x, x ∈ u ↔ x ∈ s :: rest := by
        intro x
        rw [humem x]
        simp [List.mem_cons]
      have hru : recordSnippetSeq (s :: rest) none = some u := by
        simp only [recordSnippetSeq, htab]
        exact hu
      rw [hru]
      simp only [Option.getD_some]
      refine ⟨hund, hmem2, ?_⟩
      have hfs : u.toFinset = (s :: rest).toFinset := by
        apply Finset.ext
        intro x
        simp only [List.mem_toFinset]
        exact hmem2 x
      rw [← List.toFinset_card_of_nodup hund, hfs]

/-! Cache soft-failure (C9). -/

/-- C9: a shared-cache failure is never escalated.  A findSharedData
error (or a key-allocation failure) reports nothing found, so the driver
takes the same ephemeral-table path as a plain cache miss, and the
verification verdict — with its reason code, in which only
BCV_ERR_INSUFFICIENT_MEMORY and a relationship violation can appear — is
exactly the local-table processing result, whatever the outcome of the
subsequent cache store.  (The driver around the fetch/process/store
calls is modelled from the spec; see verifierSnippetPass.) -/
theorem cache_failures_are_soft
    (env : VMEnv) (vd : J9BytecodeVerificationData)
    (snippets : List J9ClassRelationshipSnippet) (table : Option J9ClassRelationshipTable)
    (oracle : List Bool) (keyAllocOkFetch : Bool) (outcome : CacheFindOutcome)
    (keyAllocOkStore bufferAllocOk cacheStoreOk : Bool)
    (hmiss : outcome = .miss ∨ outcome = .findError ∨ keyAllocOkFetch = false) :
    (j9bcv_fetchClassRelationshipSnippetsFromSharedCache keyAllocOkFetch .findError).1 =
      false ∧
    verifierSnippetPass env vd snippets table oracle keyAllocOkFetch outcome
        keyAllocOkStore bufferAllocOk cacheStoreOk =
      processClassRelationshipSnippetsNoCachedData env vd snippets table oracle := by
  constructor
  · cases keyAllocOkFetch <;>
      simp [j9bcv_fetchClassRelationshipSnippetsFromSharedCache]
  · rcases hmiss with rfl | rfl | rfl
    · cases keyAllocOkFetch <;>
        simp [verifierSnippetPass, j9bcv_fetchClassRelationshipSnippetsFromSharedCache]
    · cases keyAllocOkFetch <;>
        simp [verifierSnippetPass, j9bcv_fetchClassRelationshipSnippetsFromSharedCache]
    · cases outcome <;>
        simp [verifierSnippetPass, j9bcv_fetchClassRelationshipSnippetsFromSharedCache]

/-! Concrete collaborator views used by the witnesses. -/

/-- Nothing is loaded; no hierarchy relation holds. -/
def wEnvNone : VMEnv :=
  ⟨fun _ => none, fun _ _ => false, ⟨"java/lang/Throwable", false⟩⟩

/-- The interface I and the non-interface classes A and B are loaded; no
hierarchy relation holds. -/
def wEnvLoaded : VMEnv :=
  ⟨fun n => if n = "I" then some ⟨"I", true⟩
    else if n = "A" then some ⟨"A", false⟩
    else if n = "B" then some ⟨"B", false⟩
    else none,
   fun _ _ => false, ⟨"java/lang/Throwable", false⟩⟩

/-- Only the interface B is loaded; no hierarchy relation holds. -/
def wEnvBInterface : VMEnv :=
  ⟨fun n => if n = "B" then some ⟨"B", true⟩ else none,
   fun _ _ => false, ⟨"java/lang/Throwable", false⟩⟩

theorem TableWF_single (c p : ClassName) (f : J9RelationshipFlags)
    (hp : p ≠ J9RELATIONSHIP_JAVA_LANG_THROWABLE_STRING) :
    TableWF [⟨c, f, [⟨p⟩]⟩] := by
  refine ⟨by simp, ?_⟩
  intro e he
  rw [List.mem_singleton.mp he]
  refine ⟨List.pairwise_singleton _ _, by simp [rootNamesNodup], ?_⟩
  intro n hn
  rw [List.mem_singleton.mp hn]
  exact hp

theorem validate_propagates_mustBeInterface_witness :
    (∃ t2, (j9bcv_validateClassRelationships wEnvNone
        (some [⟨"A", ⟨false, false⟩, [⟨"P"⟩]⟩]) "A" ⟨"A", false⟩ []).table = some t2 ∧
      ∃ e', findClassRelationship t2 "P" = some e' ∧ e'.flags.mustBeInterface = true) ∧
    (j9bcv_validateClassRelationships wEnvNone (some [⟨"P", ⟨true, false⟩, []⟩]) "P"
      ⟨"P", false⟩ []).failedClass = some ⟨"P", false⟩ :=
  ⟨(validate_propagates_mustBeInterface wEnvNone [⟨"A", ⟨false, false⟩, [⟨"P"⟩]⟩] "A"
      ⟨"A", false⟩ ⟨"A", ⟨false, false⟩, [⟨"P"⟩]⟩ [] [] ⟨"P"⟩
      [⟨"A", ⟨false, false⟩, [⟨"P"⟩]⟩] (by decide) (by decide) (by decide) rfl rfl rfl
      (by decide)).1,
   (validate_propagates_mustBeInterface wEnvNone [⟨"A", ⟨false, false⟩, [⟨"P"⟩]⟩] "A"
      ⟨"A", false⟩ ⟨"A", ⟨false, false⟩, [⟨"P"⟩]⟩ [] [] ⟨"P"⟩
      [⟨"A", ⟨false, false⟩, [⟨"P"⟩]⟩] (by decide) (by decide) (by decide) rfl rfl rfl
      (by decide)).2 wEnvNone [⟨"P", ⟨true, false⟩, []⟩] "P" ⟨"P", false⟩
      ⟨"P", ⟨true, false⟩, []⟩ [] (by decide) rfl rfl⟩

/-- NameTable used by the round-trip witness. -/
def wVd : J9BytecodeVerificationData :=
  ⟨fun i => if i = 0 then "Alpha" else "Bet", none⟩

theorem snippet_blob_round_trip_witness :
    decodeDataBuffer (serializeSnippets 20 wVd [⟨0, 1⟩]) =
      some ([⟨0, 1⟩].map (snippetNames wVd)) ∧
    decodeDataBuffer (storeToDataBuffer .J9RELATIONSHIP_SNIPPET_USE_HASHTABLE wVd [⟨0, 1⟩]) =
      some ([⟨0, 1⟩].map (snippetNames wVd)) :=
  ⟨(snippet_blob_round_trip 20 wVd [⟨0, 1⟩] (by decide)).1,
   (snippet_blob_round_trip 20 wVd [⟨0, 1⟩] (by decide)).2
     .J9RELATIONSHIP_SNIPPET_USE_HASHTABLE⟩

theorem checkSnippetRelationship_interface_parent_witness :
    checkSnippetRelationship wEnvLoaded "C" "I" (some []) [] =
      ⟨.BCV_SUCCESS, none, some [], []⟩ :=
  checkSnippetRelationship_interface_parent wEnvLoaded "C" "I" (some []) [] ⟨"I", true⟩
    (by decide) rfl

theorem throwable_shortcut_witness :
    (optTableNodeCount ((j9bcv_recordClassRelationship "A"
        J9RELATIONSHIP_JAVA_LANG_THROWABLE_STRING (some []) []).table) =
      optTableNodeCount (some []) ∧
      ∃ t' e', (j9bcv_recordClassRelationship "A" J9RELATIONSHIP_JAVA_LANG_THROWABLE_STRING
          (some []) []).table = some t' ∧
        findClassRelationship t' "A" = some e' ∧ e'.flags.parentIsThrowable = true) ∧
    ("B" : ClassName) ≠ J9RELATIONSHIP_JAVA_LANG_THROWABLE_STRING ∧
    (j9bcv_validateClassRelationships wEnvNone (some [⟨"A", ⟨false, true⟩, []⟩]) "A"
      ⟨"A", false⟩ []).failedClass = some wEnvNone.throwableClass :=
  ⟨⟨(throwable_shortcut "A" (some []) []).1.1,
    (throwable_shortcut "A" (some []) []).1.2 (by decide)⟩,
   (throwable_shortcut "A" (some []) []).2.1
     (j9bcv_recordClassRelationship "A" "B" none []).table
     (Reachable.record "A" "B" [] Reachable.empty)
     [⟨"A", ⟨false, false⟩, [⟨"B"⟩]⟩] (by decide)
     ⟨"A", ⟨false, false⟩, [⟨"B"⟩]⟩ (by decide) ⟨"B"⟩ (by decide),
   (throwable_shortcut "A" (some []) []).2.2 wEnvNone [⟨"A", ⟨false, true⟩, []⟩] "A"
     ⟨"A", false⟩ [] ⟨"A", ⟨false, true⟩, []⟩ (by decide) rfl rfl rfl⟩

theorem entry_iff_obligation_witness :
    hasObligation ⟨"A", ⟨false, false⟩, [⟨"B"⟩]⟩ ∧
    findClassRelationship [] "A" = none :=
  ⟨(entry_iff_obligation (j9bcv_recordClassRelationship "A" "B" none []).table).1
     (ReachableOk.record "A" "B" [] ReachableOk.empty (by decide))
     [⟨"A", ⟨false, false⟩, [⟨"B"⟩]⟩] (by decide)
     ⟨"A", ⟨false, false⟩, [⟨"B"⟩]⟩ (by decide),
   (entry_iff_obligation (some [⟨"A", ⟨false, false⟩, [⟨"B"⟩]⟩])).2 wEnvBInterface "A"
     ⟨"A", false⟩ [] (TableWF_single "A" "B" ⟨false, false⟩ (by decide)) (by decide) []
     (by decide)⟩

theorem processSnippetPairs_fail_fast_witness :
    processSnippetPairs wEnvLoaded ([] ++ ("A", "B") :: [("X", "Y")]) (some []) [] =
      processSnippetPairs wEnvLoaded ([] ++ [("A", "B")]) (some []) [] ∧
    (processSnippetPairs wEnvLoaded ([] ++ ("A", "B") :: [("X", "Y")])
      (some []) []).reasonCode = .BCV_ERR_INTERNAL_ERROR ∧
    (processSnippetPairs wEnvLoaded ([] ++ ("A", "B") :: [("X", "Y")])
      (some []) []).violatingClass = some "B" :=
  processSnippetPairs_fail_fast wEnvLoaded [] [("X", "Y")] (some []) [] "A" "B"
    ⟨"B", false⟩ ⟨"A", false⟩ rfl (by decide) rfl (by decide) rfl

theorem parents_ordered_nodup_and_duplicate_noop_witness :
    (rootOrdered [⟨"B"⟩] ∧ rootNamesNodup [⟨"B"⟩]) ∧
    j9bcv_recordClassRelationship "A" "B" (some [⟨"A", ⟨false, false⟩, [⟨"B"⟩]⟩]) [] =
      ⟨true, .BCV_SUCCESS, some [⟨"A", ⟨false, false⟩, [⟨"B"⟩]⟩], []⟩ :=
  ⟨parents_ordered_nodup_and_duplicate_noop.1
     (j9bcv_recordClassRelationship "A" "B" none []).table
     (Reachable.record "A" "B" [] Reachable.empty)
     [⟨"A", ⟨false, false⟩, [⟨"B"⟩]⟩] (by decide)
     ⟨"A", ⟨false, false⟩, [⟨"B"⟩]⟩ (by decide),
   parents_ordered_nodup_and_duplicate_noop.2 [⟨"A", ⟨false, false⟩, [⟨"B"⟩]⟩] "A" "B"
     ⟨"A", ⟨false, false⟩, [⟨"B"⟩]⟩ [] (TableWF_single "A" "B" ⟨false, false⟩ (by decide))
     (by decide) (by decide)⟩

theorem cache_failures_are_soft_witness :
    (j9bcv_fetchClassRelationshipSnippetsFromSharedCache true .findError).1 = false ∧
    verifierSnippetPass wEnvNone wVd [] (some []) [] true .findError false false false =
      processClassRelationshipSnippetsNoCachedData wEnvNone wVd [] (some []) [] :=
  cache_failures_are_soft wEnvNone wVd [] (some []) [] true .findError false false false
    (Or.inr (Or.inl rfl))

theorem validate_oom_returns_child_witness :
    (j9bcv_validateClassRelationships wEnvNone (some [⟨"A", ⟨false, false⟩, [⟨"P"⟩]⟩]) "A"
      ⟨"A", false⟩ [true]).failedClass = some ⟨"A", false⟩ :=
  validate_oom_returns_child wEnvNone [⟨"A", ⟨false, false⟩, [⟨"P"⟩]⟩] "A" ⟨"A", false⟩
    ⟨"A", ⟨false, false⟩, [⟨"P"⟩]⟩ [] [] ⟨"P"⟩ [⟨"A", ⟨false, false⟩, [⟨"P"⟩]⟩] [true] [true]
    (by decide) (by decide) (by decide) rfl rfl rfl (by decide) (Or.inl ⟨[], rfl⟩)

end ClassRelationships
